import Mathlib

/-!
Verification of the dfcoder workshop scheduler, retry executor and
supervision engine (crate `dfcoder-core`).

Shallow embedding conventions:
* `AgentId`/`TaskId` are `String`, as in the source (`type AgentId = String`).
* `Instant` timestamps are modelled by a logical clock `now : Nat` supplied
  explicitly to every operation that calls `Instant::now()`; wall-clock
  `elapsed()` durations that the scheduler merely stores (never branches on,
  except through the supplied clock) are modelled as `0`.
* `f32` arithmetic and `Duration` values are modelled over `ℚ`; `Duration`
  fields that the code only ever stores are kept as `Nat`/`ℚ` seconds.
* Rust `HashMap`s are modelled as association lists (`List (κ × ν)`) when the
  code iterates over the map, and as total functions with the `unwrap_or`
  default when every access goes through `get(..).unwrap_or(..)`
  (`max_concurrent`, `active_agents`, `agent_utilization`).
  `HashMap` iteration order, which Rust leaves unspecified, is modelled as
  insertion order.
* `&mut self` methods that can fail after mutating return
  `Except Error α × State` (result and post-state), so that partial mutations
  before an early `return Err(..)` are captured faithfully.
-/

namespace DFCoder

/-! ## Association-list helpers (model of `HashMap` keyed access) -/

/-- First binding for key `k`, as `HashMap::get`. -/
def alLookup {κ ν : Type} [DecidableEq κ] (l : List (κ × ν)) (k : κ) :
    Option ν :=
  (l.find? (fun p => p.1 = k)).map (·.2)

/-- Model of `HashMap::insert`: replace the binding of `k` if present, else append. -/
def alInsert {κ ν : Type} [DecidableEq κ] (l : List (κ × ν)) (k : κ) (v : ν) :
    List (κ × ν) :=
  if l.any (fun p => p.1 = k) then
    l.map (fun p => if p.1 = k then (k, v) else p)
  else
    l ++ [(k, v)]

/-- Model of `HashMap::remove`: drop the binding of `k`. -/
def alRemove {κ ν : Type} [DecidableEq κ] (l : List (κ × ν)) (k : κ) :
    List (κ × ν) :=
  l.filter (fun p => ¬ p.1 = k)

instance {ε α : Type} [DecidableEq ε] [DecidableEq α] :
    DecidableEq (Except ε α) := fun x y =>
  match x, y with
  | .ok a, .ok b => decidable_of_iff (a = b) (by simp)
  | .ok _, .error _ => isFalse (fun h => Except.noConfusion h)
  | .error _, .ok _ => isFalse (fun h => Except.noConfusion h)
  | .error e, .error f => decidable_of_iff (e = f) (by simp)

/-! ## Agent and task model (`agents.rs`) -/

/-- Model of `type AgentId = String` -/
abbrev AgentId := String

/-- Model of `type TaskId = String` -/
abbrev TaskId := String

/-- Model of `enum AgentRole` -/
inductive AgentRole where
  | Scaffolder
  | Implementer
  | Debugger
  | Tester
deriving DecidableEq

/-- Model of `enum AgentStatus` -/
inductive AgentStatus where
  | Idle
  | Working
  | Stuck
  | NeedsSupervision
  | Error
deriving DecidableEq

/-- Model of `enum TaskStatus` -/
inductive TaskStatus where
  | Pending
  | Assigned
  | InProgress
  | Completed
  | Failed
  | Cancelled
deriving DecidableEq

/-- Model of `enum TaskPriority`; `derive(PartialOrd, Ord)` orders by declaration. -/
inductive TaskPriority where
  | Low
  | Normal
  | High
  | Critical
deriving DecidableEq

/-- Rank used to model the derived `Ord` on `TaskPriority`. -/
def TaskPriority.rank : TaskPriority → Nat
  | .Low => 0
  | .Normal => 1
  | .High => 2
  | .Critical => 3

instance : LT TaskPriority := ⟨fun a b => a.rank < b.rank⟩

instance : DecidableRel (· < · : TaskPriority → TaskPriority → Prop) :=
  fun a b => inferInstanceAs (Decidable (a.rank < b.rank))

instance : LE TaskPriority := ⟨fun a b => a.rank ≤ b.rank⟩

instance : DecidableRel (· ≤ · : TaskPriority → TaskPriority → Prop) :=
  fun a b => inferInstanceAs (Decidable (a.rank ≤ b.rank))

/-- Model of `struct AgentMetrics`; `success_rate : f32` is modelled over `ℚ`,
`average_completion_time` (a stored `Duration`) as seconds. -/
structure AgentMetrics where
  tasks_completed : Nat
  tasks_failed : Nat
  average_completion_time : Nat
  success_rate : ℚ
  help_requests : Nat
  last_error : Option String
deriving DecidableEq

/-- Model of `impl Default for AgentMetrics` -/
def AgentMetrics.default : AgentMetrics :=
  { tasks_completed := 0, tasks_failed := 0, average_completion_time := 0,
    success_rate := 0, help_requests := 0, last_error := none }

/-- Model of `struct Agent`; `created_at`/`last_activity` are logical-clock values. -/
structure Agent where
  id : AgentId
  role : AgentRole
  pane_id : Nat
  current_task : Option TaskId
  status : AgentStatus
  created_at : Nat
  last_activity : Nat
  metrics : AgentMetrics
deriving DecidableEq

/-- Model of `struct TaskContext`; `estimated_duration` in seconds. -/
structure TaskContext where
  files : List String
  dependencies : List TaskId
  priority : TaskPriority
  estimated_duration : Option Nat
deriving DecidableEq

/-- Model of `struct Task`; timestamps are logical-clock values. -/
structure Task where
  id : TaskId
  title : String
  description : String
  required_role : AgentRole
  status : TaskStatus
  created_at : Nat
  assigned_at : Option Nat
  completed_at : Option Nat
  assignee : Option AgentId
  context : TaskContext
deriving DecidableEq

/-- Model of `Agent::new`; the source draws a fresh UUID for `id`, modelled by
passing the generated id explicitly. -/
def Agent.new (id : AgentId) (role : AgentRole) (pane_id : Nat) (now : Nat) :
    Agent :=
  { id := id, role := role, pane_id := pane_id, current_task := none,
    status := .Idle, created_at := now, last_activity := now,
    metrics := AgentMetrics.default }

/-- Model of `Agent::can_handle_task` -/
def Agent.can_handle_task (a : Agent) (t : Task) : Bool :=
  a.role = t.required_role && a.status = .Idle

/-- Model of `Agent::assign_task`: only an `Idle` agent accepts a task. -/
def Agent.assign_task (a : Agent) (task_id : TaskId) (now : Nat) :
    Except String Agent :=
  if a.status ≠ AgentStatus.Idle then
    .error ("Agent " ++ a.id ++ " is not idle")
  else
    .ok { a with current_task := some task_id, status := .Working,
                 last_activity := now }

/-- Model of `Agent::complete_task`: takes the current task, goes `Idle`, bumps
`tasks_completed` and recomputes `success_rate` unconditionally. -/
def Agent.complete_task (a : Agent) (now : Nat) :
    Except String (TaskId × Agent) :=
  match a.current_task with
  | none => .error "No task assigned to complete"
  | some task_id =>
    let completed := a.metrics.tasks_completed + 1
    let total := completed + a.metrics.tasks_failed
    .ok (task_id,
      { a with current_task := none, status := .Idle, last_activity := now,
               metrics := { a.metrics with
                 tasks_completed := completed,
                 success_rate := (completed : ℚ) / (total : ℚ) } })

/-- Model of `Agent::fail_task`: takes the current task, goes `Error`, bumps
`tasks_failed`, stores the error, recomputes `success_rate` when the
denominator is positive. -/
def Agent.fail_task (a : Agent) (error : String) (now : Nat) :
    Except String (TaskId × Agent) :=
  match a.current_task with
  | none => .error "No task assigned to fail"
  | some task_id =>
    let failed := a.metrics.tasks_failed + 1
    let total := a.metrics.tasks_completed + failed
    .ok (task_id,
      { a with current_task := none, status := .Error, last_activity := now,
               metrics := { a.metrics with
                 tasks_failed := failed,
                 last_error := some error,
                 success_rate :=
                   if total > 0 then
                     (a.metrics.tasks_completed : ℚ) / (total : ℚ)
                   else a.metrics.success_rate } })

/-- Model of `Agent::request_help` -/
def Agent.request_help (a : Agent) (now : Nat) : Agent :=
  { a with status := .NeedsSupervision,
           metrics := { a.metrics with
             help_requests := a.metrics.help_requests + 1 },
           last_activity := now }

/-- Model of `Agent::is_stuck`: `Working` and `last_activity.elapsed() > threshold`. -/
def Agent.is_stuck (a : Agent) (threshold : Nat) (now : Nat) : Bool :=
  a.status = .Working && threshold < now - a.last_activity

/-- Model of `Agent::mark_activity` -/
def Agent.mark_activity (a : Agent) (now : Nat) : Agent :=
  { a with last_activity := now }

/-- A lifecycle operation on a single agent (the public mutators of
`impl Agent`). -/
inductive AgentOp where
  | assign (task_id : TaskId) (now : Nat)
  | complete (now : Nat)
  | fail (error : String) (now : Nat)
  | requestHelp (now : Nat)
  | markActivity (now : Nat)

/-- Apply one lifecycle operation; a `&mut self` method that returns `Err`
before mutating leaves the agent unchanged. -/
def applyAgentOp (a : Agent) : AgentOp → Agent
  | .assign task_id now =>
    match a.assign_task task_id now with
    | .ok a' => a'
    | .error _ => a
  | .complete now =>
    match a.complete_task now with
    | .ok (_, a') => a'
    | .error _ => a
  | .fail error now =>
    match a.fail_task error now with
    | .ok (_, a') => a'
    | .error _ => a
  | .requestHelp now => a.request_help now
  | .markActivity now => a.mark_activity now

/-- Apply a sequence of lifecycle operations. -/
def applyAgentOps (a : Agent) (ops : List AgentOp) : Agent :=
  ops.foldl applyAgentOp a

/-- Model of `Task::new`; the source draws a fresh UUID for `id`, modelled by passing
the generated id explicitly. -/
def Task.new (id : TaskId) (title description : String)
    (required_role : AgentRole) (priority : TaskPriority) (now : Nat) : Task :=
  { id := id, title := title, description := description,
    required_role := required_role, status := .Pending, created_at := now,
    assigned_at := none, completed_at := none, assignee := none,
    context := { files := [], dependencies := [], priority := priority,
                 estimated_duration := none } }

/-- Model of `Task::assign_to` -/
def Task.assign_to (t : Task) (agent_id : AgentId) (now : Nat) : Task :=
  { t with assignee := some agent_id, status := .Assigned,
           assigned_at := some now }

/-- Model of `Task::start` -/
def Task.start (t : Task) : Task :=
  { t with status := .InProgress }

/-- Model of `Task::dependencies_satisfied` -/
def Task.dependencies_satisfied (t : Task) (completed_tasks : List TaskId) :
    Bool :=
  t.context.dependencies.all (fun dep => completed_tasks.contains dep)

/-- Is `pat` a prefix of `s` (on character lists)? -/
def charsPrefix : List Char → List Char → Bool
  | [], _ => true
  | _ :: _, [] => false
  | c :: cs, d :: ds => c = d && charsPrefix cs ds

/-- Does `pat` occur as a contiguous subsequence of `s`? -/
def charsContains (pat : List Char) : List Char → Bool
  | [] => pat.isEmpty
  | c :: rest => charsPrefix pat (c :: rest) || charsContains pat rest

/-- Model of `str::contains` (substring test), on the underlying character data. -/
def strContains (s pat : String) : Bool :=
  charsContains pat.data s.data

/-- Model of `str::to_lowercase`, on the underlying character data. -/
def strToLower (s : String) : String :=
  ⟨s.data.map Char.toLower⟩

/-! ## Retry executor (`retry.rs`) -/

/-- Model of `enum ErrorType` -/
inductive ErrorType where
  | NetworkError
  | RateLimitError
  | AuthError
  | ResourceUnavailable
  | ParseError
  | ComplexityError
  | Retryable
  | Fatal
deriving DecidableEq

/-- Rendering of the derived `Debug` for `ErrorType` (used via `{:?}`). -/
def ErrorType.debugStr : ErrorType → String
  | .NetworkError => "NetworkError"
  | .RateLimitError => "RateLimitError"
  | .AuthError => "AuthError"
  | .ResourceUnavailable => "ResourceUnavailable"
  | .ParseError => "ParseError"
  | .ComplexityError => "ComplexityError"
  | .Retryable => "Retryable"
  | .Fatal => "Fatal"

/-- Model of `struct RetryPolicy`; the `Duration`/`f32` fields are modelled over `ℚ`
(seconds). -/
structure RetryPolicy where
  max_attempts : Nat
  initial_backoff : ℚ
  backoff_multiplier : ℚ
  max_backoff : ℚ
  retry_on : List ErrorType
deriving DecidableEq

/-- Model of `impl Default for RetryPolicy` -/
def RetryPolicy.default : RetryPolicy :=
  { max_attempts := 3, initial_backoff := 1, backoff_multiplier := 2,
    max_backoff := 30,
    retry_on := [.NetworkError, .RateLimitError, .ResourceUnavailable,
                 .Retryable] }

/-- Model of `RetryPolicy::conservative` -/
def RetryPolicy.conservative : RetryPolicy :=
  { max_attempts := 2, initial_backoff := 2, backoff_multiplier := 3,
    max_backoff := 60, retry_on := [.NetworkError, .RateLimitError] }

/-- Model of `RetryPolicy::aggressive` -/
def RetryPolicy.aggressive : RetryPolicy :=
  { max_attempts := 5, initial_backoff := 1/2, backoff_multiplier := 3/2,
    max_backoff := 15,
    retry_on := [.NetworkError, .RateLimitError, .ResourceUnavailable,
                 .ParseError, .Retryable] }

/-- Model of `RetryPolicy::calculate_backoff`:
`0` for attempt `0`, else `min(initial · multiplier^(attempt-1), max)`. -/
def RetryPolicy.calculate_backoff (p : RetryPolicy) (attempt : Nat) : ℚ :=
  if attempt = 0 then 0
  else min (p.initial_backoff * p.backoff_multiplier ^ (attempt - 1))
           p.max_backoff

/-- Model of `RetryPolicy::should_retry` -/
def RetryPolicy.should_retry (p : RetryPolicy) (error : ErrorType) : Bool :=
  p.retry_on.any (fun e => e = error)

/-- Model of `struct TaskResult`; `duration` (a stored wall-clock `Duration`) is
modelled in seconds with elapsed wall time taken as `0`. -/
structure TaskResult where
  success : Bool
  output : String
  error : Option ErrorType
  duration : Nat
  attempt_number : Nat
deriving DecidableEq

/-- Model of `enum RetryError` -/
inductive RetryError where
  | MaxAttemptsExceeded (n : Nat)
  | NonRetryable (e : ErrorType)
  | Timeout (d : ℚ)
  | AgentError (s : String)
deriving DecidableEq

/-- Rendering of the derived `Debug` for `RetryError` (used via `{:?}` in
`execute_task_with_retry`'s error mapping). -/
def RetryError.debugStr : RetryError → String
  | .MaxAttemptsExceeded n => "MaxAttemptsExceeded(" ++ toString n ++ ")"
  | .NonRetryable e => "NonRetryable(" ++ e.debugStr ++ ")"
  | .Timeout d => "Timeout(" ++ toString d ++ ")"
  | .AgentError s => "AgentError(\"" ++ s ++ "\")"

/-- Model of `RetryExecutor::execute_single_attempt`: the deterministic fake keyed off
substrings of the task description (the injected single-attempt executor). -/
def execute_single_attempt (task : Task) (attempt : Nat) :
    Except ErrorType TaskResult :=
  if attempt = 1 && strContains task.description "network" then
    .error .NetworkError
  else if attempt ≤ 2 && strContains task.description "rate" then
    .error .RateLimitError
  else if strContains task.description "fatal" then
    .error .Fatal
  else
    .ok { success := true,
          output := "Task \x27" ++ task.title ++
            "\x27 completed successfully on attempt " ++ toString attempt,
          error := none, duration := 1, attempt_number := attempt }

/-- The `for attempt in 1..=max_attempts` loop of
`RetryExecutor::execute_task`, structured on the remaining number of
iterations (`fuel`, initially `max_attempts`).  The backoff sleep and the
logging-only `adapt_strategy_for_failures` hook do not change any modelled
state. -/
def execute_task_loop (policy : RetryPolicy) (task : Task) :
    Nat → Nat → Except RetryError TaskResult
  | _attempt, 0 => .error (.MaxAttemptsExceeded policy.max_attempts)
  | attempt, fuel + 1 =>
    match execute_single_attempt task attempt with
    | .ok r =>
      .ok { success := true, output := r.output, error := none,
            duration := 0, attempt_number := attempt }
    | .error e =>
      if ¬ policy.should_retry e then .error (.NonRetryable e)
      else if attempt = policy.max_attempts then
        .error (.MaxAttemptsExceeded attempt)
      else execute_task_loop policy task (attempt + 1) fuel

/-- Model of `RetryExecutor::execute_task` (the `agent` reference is only read for
logging by the adaptation hook). -/
def RetryExecutor.execute_task (policy : RetryPolicy) (_agent : Agent)
    (task : Task) : Except RetryError TaskResult :=
  execute_task_loop policy task 1 policy.max_attempts

/-! ## Supervision engine (`supervision.rs`) -/

/-- Model of `enum SupervisionAction` -/
inductive SupervisionAction where
  | ProvideGuidance (text : String)
  | RequestMoreInfo
  | TakeOver
  | IgnoreForNow
  | EscalateToHuman
  | BreakDownTask
  | ReassignTask (role : AgentRole)
  | RestartAgent
deriving DecidableEq

/-- Model of `enum SupervisionUrgency` -/
inductive SupervisionUrgency where
  | Low
  | Medium
  | High
  | Critical
deriving DecidableEq

/-- Model of `struct SupervisionOption`; `estimated_time` in seconds. -/
structure SupervisionOption where
  id : Nat
  text : String
  action : SupervisionAction
  icon : String
  estimated_time : Nat
deriving DecidableEq

/-- Model of `struct SupervisionRequest`; `timeout` in seconds, `created_at` a
logical-clock value. -/
structure SupervisionRequest where
  agent_id : AgentId
  context : String
  options : List SupervisionOption
  timeout : Nat
  urgency : SupervisionUrgency
  created_at : Nat
deriving DecidableEq

/-- Model of `enum SupervisionEventType` -/
inductive SupervisionEventType where
  | RequestGenerated
  | OptionSelected
  | AutoResolved
  | Timeout
  | Escalated
deriving DecidableEq

/-- Model of `struct SupervisionEvent` -/
structure SupervisionEvent where
  agent_id : AgentId
  event_type : SupervisionEventType
  context : String
  timestamp : Nat
  resolution : Option SupervisionAction
deriving DecidableEq

/-- Model of `enum SupervisionError` -/
inductive SupervisionError where
  | AgentNotFound (id : AgentId)
  | InvalidOption (id : Nat)
  | Timeout
  | ClassificationError (s : String)
deriving DecidableEq

/-- Model of `struct SupervisionSystem` -/
structure SupervisionSystem where
  active_requests : List (AgentId × SupervisionRequest)
  supervision_history : List SupervisionEvent
  stuck_threshold : Nat
  auto_supervision : Bool
deriving DecidableEq

/-- Model of `SupervisionSystem::new` -/
def SupervisionSystem.new : SupervisionSystem :=
  { active_requests := [], supervision_history := [],
    stuck_threshold := 300, auto_supervision := false }

/-- Model of `SupervisionSystem::handle_supervision_response`.  The source first
`remove`s the request from `active_requests`, and only then looks the option
up: when the option id is unknown it returns `Err(InvalidOption)` with the
request already removed.  Returns the result together with the post-state. -/
def SupervisionSystem.handle_supervision_response (s : SupervisionSystem)
    (agent_id : AgentId) (option_id : Nat) (now : Nat) :
    Except SupervisionError SupervisionAction × SupervisionSystem :=
  match alLookup s.active_requests agent_id with
  | none => (.error (.AgentNotFound agent_id), s)
  | some request =>
    let s1 := { s with
      active_requests := alRemove s.active_requests agent_id }
    match request.options.find? (fun o => o.id = option_id) with
    | none => (.error (.InvalidOption option_id), s1)
    | some o =>
      (.ok o.action,
       { s1 with supervision_history := s1.supervision_history ++
           [{ agent_id := agent_id,
              event_type := .OptionSelected,
              context := "Selected option " ++ toString option_id ++ ": " ++
                o.text,
              timestamp := now,
              resolution := some o.action }] })

/-- Model of `SupervisionSystem::get_active_request` -/
def SupervisionSystem.get_active_request (s : SupervisionSystem)
    (agent_id : AgentId) : Option SupervisionRequest :=
  alLookup s.active_requests agent_id

/-! ## Workshop manager (`coordination.rs`) -/

/-- Model of `enum TaskComplexity`; `derive(Ord)` orders by declaration. -/
inductive TaskComplexity where
  | Simple
  | Medium
  | Complex
  | Expert
deriving DecidableEq

/-- Rank used to model the derived `Ord` on `TaskComplexity`. -/
def TaskComplexity.rank : TaskComplexity → Nat
  | .Simple => 0
  | .Medium => 1
  | .Complex => 2
  | .Expert => 3

/-- Model of `struct AgentExpertise`; success rates over `ℚ`, completion times in
`ℚ` seconds, `last_updated` a logical-clock value.  The stored
`specialization_score` — a write-only cache of the (f32) standard deviation
of the success rates, recomputed on every update and never read by any
modelled operation — is omitted from the state. -/
structure AgentExpertise where
  task_success_rates : List (String × ℚ)
  completion_times : List (TaskComplexity × ℚ)
  total_tasks : Nat
  last_updated : Nat
deriving DecidableEq

/-- Model of `impl Default for AgentExpertise` -/
def AgentExpertise.default : AgentExpertise :=
  { task_success_rates := [], completion_times := [], total_tasks := 0,
    last_updated := 0 }

/-- Model of `struct WorkshopMetrics`.  `agent_utilization` is modelled as a total
function (all reads go through the role map); durations in seconds. -/
structure WorkshopMetrics where
  total_tasks_processed : Nat
  tasks_completed : Nat
  tasks_failed : Nat
  tasks_retried : Nat
  average_task_duration : Nat
  agent_utilization : AgentRole → ℚ
  queue_length : Nat
  bottleneck_role : Option AgentRole
  throughput : ℚ
  success_rate : ℚ
  cost_per_task : ℚ

/-- Model of `impl Default for WorkshopMetrics` -/
def WorkshopMetrics.default : WorkshopMetrics :=
  { total_tasks_processed := 0, tasks_completed := 0, tasks_failed := 0,
    tasks_retried := 0, average_task_duration := 0,
    agent_utilization := fun _ => 0, queue_length := 0,
    bottleneck_role := none, throughput := 0, success_rate := 0,
    cost_per_task := 0 }

/-- Model of `enum WorkshopError` -/
inductive WorkshopError where
  | AgentNotFound (id : AgentId)
  | TaskNotFound (id : TaskId)
  | NoAvailableAgents (role : AgentRole)
  | AgentBusy (id : AgentId) (task : TaskId)
  | DependenciesNotSatisfied (deps : List TaskId)
  | AtCapacity (role : AgentRole)
deriving DecidableEq

/-- Model of `struct WorkshopManager`.  `max_concurrent` and `active_agents` are
modelled as total functions (every read uses `get(..).unwrap_or(..)`, and
`WorkshopManager::new` populates all four roles); `agents` and
`agent_expertise` are association lists since the code iterates over them.
The `retry_executor` field is its contained policy. -/
structure WorkshopManager where
  max_concurrent : AgentRole → Nat
  active_agents : AgentRole → List AgentId
  agents : List (AgentId × Agent)
  task_queue : List Task
  completed_tasks : List TaskId
  metrics : WorkshopMetrics
  retry_policy : RetryPolicy
  agent_expertise : List (AgentId × AgentExpertise)

/-- The four roles in the insertion order used by `WorkshopManager::new`. -/
def allRoles : List AgentRole :=
  [.Scaffolder, .Implementer, .Debugger, .Tester]

/-- Model of `WorkshopManager::new`: default per-role caps 1/3/2/2. -/
def WorkshopManager.new : WorkshopManager :=
  { max_concurrent := fun r => match r with
      | .Scaffolder => 1
      | .Implementer => 3
      | .Debugger => 2
      | .Tester => 2,
    active_agents := fun _ => [],
    agents := [],
    task_queue := [],
    completed_tasks := [],
    metrics := WorkshopMetrics.default,
    retry_policy := RetryPolicy.default,
    agent_expertise := [] }

/-- Model of `WorkshopManager::register_agent`: stores (or replaces) the agent record;
always `Ok(())`.  The source also inserts an empty vector for the agent's
role into `active_agents` when absent, which is the identity under the
total-function representation. -/
def WorkshopManager.register_agent (m : WorkshopManager) (agent : Agent) :
    Except WorkshopError Unit × WorkshopManager :=
  (.ok (), { m with agents := alInsert m.agents agent.id agent })

/-- Model of `WorkshopManager::can_assign` -/
def WorkshopManager.can_assign (m : WorkshopManager) (role : AgentRole) :
    Bool :=
  (m.active_agents role).length < m.max_concurrent role

/-- Model of `WorkshopManager::queue_task`: insert immediately before the first queued
task of strictly lower priority (`position(..).unwrap_or(len)`), then refresh
the queue-length metric. -/
def WorkshopManager.queue_task (m : WorkshopManager) (task : Task) :
    WorkshopManager :=
  let insert_pos := m.task_queue.findIdx
    (fun t => t.context.priority < task.context.priority)
  { m with
    task_queue := m.task_queue.take insert_pos ++ [task] ++
      m.task_queue.drop insert_pos,
    metrics := { m.metrics with queue_length := m.task_queue.length + 1 } }

/-- Model of `WorkshopManager::find_available_agent`: first registered agent (in the
modelled iteration order) with the role and status `Idle`. -/
def WorkshopManager.find_available_agent (m : WorkshopManager)
    (role : AgentRole) : Option AgentId :=
  (m.agents.find? (fun p => p.2.role = role && p.2.status = .Idle)).map
    (fun p => p.2.id)

/-- Model of `WorkshopManager::assign_task`: picks the first available agent of the
required role (no capacity check), marks it `Working`, and appends its id to
the role's active list.  The task value itself is updated (`assign_to`,
`start`) and then dropped by the source, so it does not enter the state. -/
def WorkshopManager.assign_task (m : WorkshopManager) (task : Task)
    (now : Nat) : Except WorkshopError AgentId × WorkshopManager :=
  match m.find_available_agent task.required_role with
  | none => (.error (.NoAvailableAgents task.required_role), m)
  | some agent_id =>
    match alLookup m.agents agent_id with
    | none => (.error (.AgentNotFound agent_id), m)
    | some agent =>
      match agent.assign_task task.id now with
      | .error _ => (.error (.AgentBusy agent_id task.id), m)
      | .ok agent' =>
        (.ok agent_id,
         { m with
           agents := alInsert m.agents agent_id agent',
           active_agents := fun r =>
             if r = task.required_role then m.active_agents r ++ [agent_id]
             else m.active_agents r,
           metrics := { m.metrics with
             queue_length := m.task_queue.length } })

/-- The per-task test of `WorkshopManager::find_assignable_task_index`:
dependencies satisfied, capacity available, an idle agent exists. -/
def WorkshopManager.assignable_pred (m : WorkshopManager) (task : Task) :
    Bool :=
  task.dependencies_satisfied m.completed_tasks &&
  m.can_assign task.required_role &&
  (m.find_available_agent task.required_role).isSome

/-- Model of `WorkshopManager::find_assignable_task_index`, returning the found queue
position together with the task at it. -/
def WorkshopManager.find_assignable_task (m : WorkshopManager) :
    Option (Nat × Task) :=
  m.task_queue.enum.find? (fun p => m.assignable_pred p.2)

/-- Model of `WorkshopManager::try_assign_next_task`.  NOTE: the source returns
`Ok(Some((agent_id.clone(), agent_id)))` — the *agent* id occupies the
`TaskId` slot of the declared `Option<(AgentId, TaskId)>` result. -/
def WorkshopManager.try_assign_next_task (m : WorkshopManager) (now : Nat) :
    Except WorkshopError (Option (AgentId × TaskId)) × WorkshopManager :=
  match m.find_assignable_task with
  | none => (.ok none, m)
  | some (index, task) =>
    let m1 := { m with task_queue := m.task_queue.eraseIdx index }
    match m1.assign_task task now with
    | (.error e, m2) => (.error e, m2)
    | (.ok agent_id, m2) => (.ok (some (agent_id, agent_id)), m2)

/-- Model of `WorkshopManager::estimate_task_complexity` (text heuristics over the
lowercased description and title; `title.len()` is the byte length). -/
def estimate_task_complexity (task : Task) : TaskComplexity :=
  let description := strToLower task.description
  let title := strToLower task.title
  if strContains description "fix" || strContains description "bug" ||
      title.utf8ByteSize < 20 then
    .Simple
  else if strContains description "implement" ||
      strContains description "feature" then
    if strContains description "complex" ||
        strContains description "integration" then .Complex
    else .Medium
  else if strContains description "architecture" ||
      strContains description "design" then
    .Expert
  else
    .Medium

/-- Model of `WorkshopManager::categorize_task` -/
def categorize_task (task : Task) : String :=
  let description := strToLower task.description
  if strContains description "test" || strContains description "spec" then
    "testing"
  else if strContains description "debug" || strContains description "fix" then
    "debugging"
  else if strContains description "setup" ||
      strContains description "scaffold" then
    "scaffolding"
  else if strContains description "implement" ||
      strContains description "feature" then
    "implementation"
  else
    "general"

/-- The comparator of `prioritize_task_queue` as a total boolean order:
priority descending, then estimated complexity ascending. -/
def task_sort_le (a b : Task) : Bool :=
  if a.context.priority.rank = b.context.priority.rank then
    (estimate_task_complexity a).rank ≤ (estimate_task_complexity b).rank
  else
    b.context.priority.rank < a.context.priority.rank

/-- Stable insertion of `x` into a list sorted by `le` (after every element
`y` with `le y x`). -/
def stableInsert {α : Type} (le : α → α → Bool) (x : α) : List α → List α
  | [] => [x]
  | y :: ys => if le y x then y :: stableInsert le x ys else x :: y :: ys

/-- Model of the stable `Vec::sort_by`. -/
def stableSortBy {α : Type} (le : α → α → Bool) (l : List α) : List α :=
  l.foldl (fun acc x => stableInsert le x acc) []

/-- Model of `WorkshopManager::prioritize_task_queue`: stable sort of the queue by
(priority desc, complexity asc). -/
def WorkshopManager.prioritize_task_queue (m : WorkshopManager) :
    WorkshopManager :=
  { m with task_queue := stableSortBy task_sort_le m.task_queue }

/-- Model of `WorkshopManager::calculate_agent_score` -/
def WorkshopManager.calculate_agent_score (m : WorkshopManager)
    (agent : Agent) (task : Task) : ℚ :=
  let expertise := alLookup m.agent_expertise agent.id
  let score : ℚ := 1/2
  let score :=
    match expertise with
    | none => score
    | some exp =>
      let task_type := categorize_task task
      let score := score +
        (match alLookup exp.task_success_rates task_type with
         | some success_rate => success_rate * (3/10)
         | none => 0)
      let complexity := estimate_task_complexity task
      let score := score +
        (match alLookup exp.completion_times complexity with
         | some avg_time => (1 / (avg_time / 3600 + 1)) * (1/5)
         | none => 0)
      score + min ((exp.total_tasks : ℚ) / 100) (1/5)
  score - (agent.metrics.tasks_completed : ℚ) * (1/100)

/-- Model of `WorkshopManager::find_best_agent_for_task`: among idle agents of the
role (with capacity), the first one whose score strictly exceeds the running
best, starting from `-1.0`. -/
def WorkshopManager.find_best_agent_for_task (m : WorkshopManager)
    (task : Task) : Option AgentId :=
  let available := (m.agents.map (·.2)).filter (fun agent =>
    agent.role = task.required_role && agent.status = .Idle &&
    m.can_assign agent.role)
  (available.foldl (fun (acc : Option AgentId × ℚ) agent =>
      let score := m.calculate_agent_score agent task
      if score > acc.2 then (some agent.id, score) else acc)
    (none, -1)).1

/-- Model of `WorkshopManager::assign_by_priority`: reorder the queue, take the first
task whose dependencies are satisfied and for which a best agent exists, and
assign it (via `assign_task`, which re-selects the *first* available agent;
the computed best agent is bound to `_best_agent` and unused). -/
def WorkshopManager.assign_by_priority (m : WorkshopManager) (now : Nat) :
    Except WorkshopError (Option (AgentId × Task)) × WorkshopManager :=
  let m0 := m.prioritize_task_queue
  match m0.task_queue.enum.find? (fun p =>
      p.2.dependencies_satisfied m0.completed_tasks &&
      (m0.find_best_agent_for_task p.2).isSome) with
  | none => (.ok none, m0)
  | some (index, task) =>
    let m1 := { m0 with task_queue := m0.task_queue.eraseIdx index }
    match m1.assign_task task now with
    | (.error e, m2) => (.error e, m2)
    | (.ok agent_id, m2) => (.ok (some (agent_id, task)), m2)

/-- Model of `WorkshopManager::update_agent_expertise` (the omitted
`specialization_score` cache update is the only part not modelled). -/
def WorkshopManager.update_agent_expertise (m : WorkshopManager)
    (agent_id : AgentId) (task : Task) (result : TaskResult) (now : Nat) :
    WorkshopManager :=
  let task_type := categorize_task task
  let complexity := estimate_task_complexity task
  let expertise := (alLookup m.agent_expertise agent_id).getD
    AgentExpertise.default
  let current_rate := (alLookup expertise.task_success_rates task_type).getD
    (1/2)
  let new_rate : ℚ :=
    if result.success then current_rate * (9/10) + 1 * (1/10)
    else current_rate * (9/10) + 0 * (1/10)
  let e1 := { expertise with
    task_success_rates := alInsert expertise.task_success_rates task_type
      new_rate }
  let e2 :=
    if result.success then
      let current_time := (alLookup e1.completion_times complexity).getD 3600
      let new_time : ℚ :=
        (((current_time * (4/5) + (result.duration : ℚ) * (1/5)).floor :
          ℤ) : ℚ)
      { e1 with completion_times :=
          alInsert e1.completion_times complexity new_time }
    else e1
  let e3 := { e2 with total_tasks := e2.total_tasks + 1, last_updated := now }
  { m with agent_expertise := alInsert m.agent_expertise agent_id e3 }

/-- Model of `WorkshopManager::execute_task_with_retry`.  NOTE: a failure of the retry
layer is mapped to `WorkshopError::TaskNotFound(format!("Retry failed: {:?}",
e))`, not propagated as a retry error. -/
def WorkshopManager.execute_task_with_retry (m : WorkshopManager)
    (agent_id : AgentId) (task : Task) (now : Nat) :
    Except WorkshopError TaskResult × WorkshopManager :=
  match alLookup m.agents agent_id with
  | none => (.error (.AgentNotFound agent_id), m)
  | some agent =>
    match RetryExecutor.execute_task m.retry_policy agent task with
    | .error e =>
      (.error (.TaskNotFound ("Retry failed: " ++ e.debugStr)), m)
    | .ok result =>
      let m1 := { m with metrics := { m.metrics with
        tasks_retried := m.metrics.tasks_retried +
          (result.attempt_number - 1) } }
      (.ok result, m1.update_agent_expertise agent_id task result now)

/-- Model of `WorkshopManager::update_metrics`: recompute per-role utilization, pick
the bottleneck (`max_by` keeps the *last* maximal entry in iteration order,
modelled as the fixed role order), refresh queue length. -/
def WorkshopManager.update_metrics (m : WorkshopManager) : WorkshopManager :=
  let utilization : AgentRole → ℚ := fun r =>
    if m.max_concurrent r > 0 then
      ((m.active_agents r).length : ℚ) / (m.max_concurrent r : ℚ)
    else 0
  let bottleneck := allRoles.foldl (fun acc r =>
      match acc with
      | none => some r
      | some best => if utilization best ≤ utilization r then some r
                     else some best)
    none
  { m with metrics := { m.metrics with
      agent_utilization := utilization,
      bottleneck_role := bottleneck,
      queue_length := m.task_queue.length } }

/-- Model of `WorkshopManager::complete_task`.  NOTE: `Agent::complete_task` mutates
the agent in place *before* the wrong-task check, so the
`Err(TaskNotFound(task_id))` branch returns with the agent already set to
`Idle` (and still in the active list). -/
def WorkshopManager.complete_task (m : WorkshopManager) (agent_id : AgentId)
    (task_id : TaskId) (now : Nat) :
    Except WorkshopError Unit × WorkshopManager :=
  match alLookup m.agents agent_id with
  | none => (.error (.AgentNotFound agent_id), m)
  | some agent =>
    match agent.complete_task now with
    | .error e => (.error (.TaskNotFound e), m)
    | .ok (completed_task_id, agent') =>
      let m1 := { m with agents := alInsert m.agents agent_id agent' }
      if completed_task_id ≠ task_id then
        (.error (.TaskNotFound task_id), m1)
      else
        let m2 := { m1 with
          active_agents := fun r =>
            if r = agent'.role then
              (m1.active_agents r).filter (fun id => id ≠ agent_id)
            else m1.active_agents r,
          completed_tasks := m1.completed_tasks ++ [task_id],
          metrics := { m1.metrics with
            tasks_completed := m1.metrics.tasks_completed + 1,
            total_tasks_processed :=
              m1.metrics.total_tasks_processed + 1 } }
        (.ok (), m2.update_metrics)

/-- Model of `WorkshopManager::fail_task` (symmetric to `complete_task`; does not add
to the completed set). -/
def WorkshopManager.fail_task (m : WorkshopManager) (agent_id : AgentId)
    (task_id : TaskId) (error : String) (now : Nat) :
    Except WorkshopError Unit × WorkshopManager :=
  match alLookup m.agents agent_id with
  | none => (.error (.AgentNotFound agent_id), m)
  | some agent =>
    match agent.fail_task error now with
    | .error e => (.error (.TaskNotFound e), m)
    | .ok (failed_task_id, agent') =>
      let m1 := { m with agents := alInsert m.agents agent_id agent' }
      if failed_task_id ≠ task_id then
        (.error (.TaskNotFound task_id), m1)
      else
        let m2 := { m1 with
          active_agents := fun r =>
            if r = agent'.role then
              (m1.active_agents r).filter (fun id => id ≠ agent_id)
            else m1.active_agents r,
          metrics := { m1.metrics with
            tasks_failed := m1.metrics.tasks_failed + 1,
            total_tasks_processed :=
              m1.metrics.total_tasks_processed + 1 } }
        (.ok (), m2.update_metrics)

/-- Model of `WorkshopManager::check_for_stuck_agents`: every stuck agent
(`Working` and inactive beyond the threshold) is sent to supervision via
`request_help`; its id is collected.  NOTE: the agent stays in the active
list. -/
def WorkshopManager.check_for_stuck_agents (m : WorkshopManager)
    (stuck_threshold : Nat) (now : Nat) :
    List AgentId × WorkshopManager :=
  ((m.agents.filter (fun p => p.2.is_stuck stuck_threshold now)).map
     (fun p => p.2.id),
   { m with agents := m.agents.map (fun p =>
       if p.2.is_stuck stuck_threshold now then (p.1, p.2.request_help now)
       else p) })

/-- Model of `WorkshopManager::set_capacity` -/
def WorkshopManager.set_capacity (m : WorkshopManager) (role : AgentRole)
    (capacity : Nat) : WorkshopManager :=
  { m with max_concurrent := fun r =>
      if r = role then capacity else m.max_concurrent r }

/-! ## The scheduler's public operations as a transition system -/

/-- One public operation on a `WorkshopManager`; each carries the logical
clock value at which it runs. -/
inductive Op where
  | register (agent : Agent)
  | setCapacity (role : AgentRole) (capacity : Nat)
  | queueTask (task : Task)
  | tryAssignNext (now : Nat)
  | assignByPriority (now : Nat)
  | assignTask (task : Task) (now : Nat)
  | completeTask (agent_id : AgentId) (task_id : TaskId) (now : Nat)
  | failTask (agent_id : AgentId) (task_id : TaskId) (error : String)
      (now : Nat)
  | checkStuck (threshold : Nat) (now : Nat)
  | executeRetry (agent_id : AgentId) (task : Task) (now : Nat)

/-- Apply one public operation (discarding the returned value). -/
def applyOp (m : WorkshopManager) : Op → WorkshopManager
  | .register agent => (m.register_agent agent).2
  | .setCapacity role capacity => m.set_capacity role capacity
  | .queueTask task => m.queue_task task
  | .tryAssignNext now => (m.try_assign_next_task now).2
  | .assignByPriority now => (m.assign_by_priority now).2
  | .assignTask task now => (m.assign_task task now).2
  | .completeTask agent_id task_id now =>
    (m.complete_task agent_id task_id now).2
  | .failTask agent_id task_id error now =>
    (m.fail_task agent_id task_id error now).2
  | .checkStuck threshold now => (m.check_for_stuck_agents threshold now).2
  | .executeRetry agent_id task now =>
    (m.execute_task_with_retry agent_id task now).2

/-- Apply a sequence of public operations. -/
def applyOps (m : WorkshopManager) (ops : List Op) : WorkshopManager :=
  ops.foldl applyOp m

/-! ## Scheduler invariant -/

/-- Well-formedness of the agent registry: every record is stored under its
own id, and keys are unique (`HashMap` keyed by `agent.id`). -/
def WorkshopManager.AgentsWf (m : WorkshopManager) : Prop :=
  (∀ p ∈ m.agents, p.2.id = p.1) ∧ (m.agents.map Prod.fst).Nodup

/-- The active list of each role holds exactly the ids of registered agents
of that role whose status is `Working`. -/
def WorkshopManager.ActiveConsistent (m : WorkshopManager) : Prop :=
  ∀ r id, id ∈ m.active_agents r ↔
    ∃ a, alLookup m.agents id = some a ∧ a.role = r ∧ a.status = .Working

/-- The scheduler invariant of §8 (items 1 and 2): active lists are
duplicate-free, coincide with the Working agents per role, and respect the
per-role capacity caps. -/
def WorkshopManager.SchedInv (m : WorkshopManager) : Prop :=
  m.AgentsWf ∧ (∀ r, (m.active_agents r).Nodup) ∧ m.ActiveConsistent ∧
  ∀ r, (m.active_agents r).length ≤ m.max_concurrent r

/-- Scheduler states reachable by the public operations *restricted* as the
code demands: registered agents are not `Working` (and do not displace a
`Working` record), and `complete_task`/`fail_task` are invoked with the
agent's own current task.  `set_capacity`, direct `assign_task` and
`check_for_stuck_agents` — each of which the code lets violate the
invariant — are not included. -/
inductive ReachableC2 : WorkshopManager → Prop where
  | init : ReachableC2 WorkshopManager.new
  | register (m : WorkshopManager) (agent : Agent) : ReachableC2 m →
      agent.status ≠ .Working →
      (∀ old, alLookup m.agents agent.id = some old →
        old.status ≠ .Working) →
      ReachableC2 (applyOp m (.register agent))
  | queueTask (m : WorkshopManager) (t : Task) : ReachableC2 m →
      ReachableC2 (applyOp m (.queueTask t))
  | tryAssignNext (m : WorkshopManager) (now : Nat) : ReachableC2 m →
      ReachableC2 (applyOp m (.tryAssignNext now))
  | assignByPriority (m : WorkshopManager) (now : Nat) : ReachableC2 m →
      ReachableC2 (applyOp m (.assignByPriority now))
  | completeTask (m : WorkshopManager) (agent_id : AgentId) (task_id : TaskId)
      (now : Nat) : ReachableC2 m →
      (∀ a t, alLookup m.agents agent_id = some a →
        a.current_task = some t → t = task_id) →
      ReachableC2 (applyOp m (.completeTask agent_id task_id now))
  | failTask (m : WorkshopManager) (agent_id : AgentId) (task_id : TaskId)
      (error : String) (now : Nat) : ReachableC2 m →
      (∀ a t, alLookup m.agents agent_id = some a →
        a.current_task = some t → t = task_id) →
      ReachableC2 (applyOp m (.failTask agent_id task_id error now))

/-! ## Queue insertion, recursively (for reasoning about `queue_task`) -/

/-- The queue insertion of `queue_task` as the list-level operation:
insert before the first task of strictly lower priority. -/
def insertByPriority (q : List Task) (task : Task) : List Task :=
  let insert_pos := q.findIdx
    (fun t => t.context.priority < task.context.priority)
  q.take insert_pos ++ [task] ++ q.drop insert_pos

/-- Recursive characterisation of `insertByPriority`. -/
def insertRec (task : Task) : List Task → List Task
  | [] => [task]
  | u :: q =>
    if u.context.priority < task.context.priority then task :: u :: q
    else u :: insertRec task q

/-! ## Concrete scenario values used by witnesses and counterexamples -/

/-- The record stored for agent `"A"` after `fail_task("A", "T", "boom")`
at clock 2 (status `Error`, task taken, failure counted). -/
def agentAFailed : Agent :=
  { id := "A", role := .Implementer, pane_id := 1, current_task := none,
    status := .Error, created_at := 0, last_activity := 2,
    metrics := { tasks_completed := 0, tasks_failed := 1,
                 average_completion_time := 0, success_rate := 0,
                 help_requests := 0, last_error := some "boom" } }

/-- The single Implementer agent of scenario S1. -/
def agentA : Agent := Agent.new "A" .Implementer 1 0

/-- The single queued Implementer task of scenario S1. -/
def taskT : Task :=
  Task.new "T" "Implement the parser feature" "implement the parser"
    .Implementer .Normal 0

/-- Fresh manager with `agentA` registered. -/
def mgrRegistered : WorkshopManager :=
  (WorkshopManager.new.register_agent agentA).2

/-- State with `taskT` queued as well. -/
def mgrQueued : WorkshopManager := mgrRegistered.queue_task taskT

/-- State after the task was assigned via `try_assign_next_task`. -/
def mgrAssigned : WorkshopManager := (mgrQueued.try_assign_next_task 1).2

/-- A task whose description makes the injected single-attempt executor fail
with `Fatal` on every attempt. -/
def taskFatal : Task :=
  Task.new "F" "Fatal demo task" "this always ends fatal" .Implementer
    .Normal 0

/-- Over-capacity state: assign the only Implementer, then lower the
Implementer cap to 0 with `set_capacity`. -/
def mgrOverCap : WorkshopManager :=
  applyOps WorkshopManager.new
    [.register agentA, .queueTask taskT, .tryAssignNext 1,
     .setCapacity .Implementer 0]

/-- A supervision option with id 1. -/
def optGuide : SupervisionOption :=
  { id := 1, text := "Provide step-by-step guidance",
    action := .ProvideGuidance "Guidance script", icon := "icon",
    estimated_time := 300 }

/-- An active supervision request for agent `A` whose only option id is 1. -/
def reqA : SupervisionRequest :=
  { agent_id := "A", context := "stuck agent", options := [optGuide],
    timeout := 30, urgency := .Critical, created_at := 0 }

/-- Supervision state with exactly one active request, for agent `A`. -/
def supWithA : SupervisionSystem :=
  { SupervisionSystem.new with active_requests := [("A", reqA)] }

/-- A retry policy with positive multiplier `1/2` (halving backoff). -/
def halvingPolicy : RetryPolicy :=
  { max_attempts := 3, initial_backoff := 2, backoff_multiplier := 1/2,
    max_backoff := 30, retry_on := [.NetworkError] }

/-- An agent that was assigned a task and then asked for help: status
`NeedsSupervision` with the task still attached. -/
def helpedAgent : Agent :=
  applyAgentOps (Agent.new "A" .Implementer 1 0)
    [.assign "t1" 1, .requestHelp 2]

/-- A manager state holding the errored agent `"A"` (the record an actual
`fail_task` run at clock 2 stores, written out literally so that concrete
evaluation stays within kernel-reducible arithmetic). -/
def mgrWithError : WorkshopManager :=
  { WorkshopManager.new with agents := [("A", agentAFailed)] }

/-- A second Implementer task. -/
def taskT2 : Task :=
  Task.new "T2" "Implement the second feature module" "implement more"
    .Implementer .Normal 3

/-- A register-free operation sequence thrown at the errored state. -/
def opsAfterError : List Op :=
  [.queueTask taskT2, .tryAssignNext 4, .completeTask "A" "T" 5,
   .checkStuck 0 9, .executeRetry "A" taskT2 10]

/-- A different agent value re-using the id `"A"` (duplicate registration). -/
def agentA2 : Agent := Agent.new "A" .Debugger 2 5

/-! # Theorems -/

/-! ## Association-list lemmas -/

theorem alLookup_cons {κ ν : Type} [DecidableEq κ] (p : κ × ν)
    (l : List (κ × ν)) (k : κ) :
    alLookup (p :: l) k = if p.1 = k then some p.2 else alLookup l k := by
  by_cases h : p.1 = k <;> simp [alLookup, List.find?, h]

theorem alLookup_map_update_self {κ ν : Type} [DecidableEq κ]
    (k : κ) (v : ν) :
    ∀ l : List (κ × ν), l.any (fun q => q.1 = k) = true →
    alLookup (l.map fun q => if q.1 = k then (k, v) else q) k = some v := by
  intro l
  induction l with
  | nil => simp
  | cons p l ih =>
    intro hany
    by_cases hp : p.1 = k
    · rw [List.map_cons, if_pos hp, alLookup_cons]
      simp
    · rw [List.map_cons, if_neg hp, alLookup_cons, if_neg hp]
      apply ih
      simpa [hp] using hany

theorem alLookup_map_update_ne {κ ν : Type} [DecidableEq κ]
    (k k' : κ) (v : ν) (h : k' ≠ k) :
    ∀ l : List (κ × ν),
    alLookup (l.map fun q => if q.1 = k then (k, v) else q) k' =
      alLookup l k' := by
  intro l
  induction l with
  | nil => simp
  | cons p l ih =>
    by_cases hp : p.1 = k
    · rw [List.map_cons, if_pos hp, alLookup_cons, alLookup_cons,
        if_neg (show ¬ (k, v).1 = k' from fun hh => h hh.symm),
        if_neg (show ¬ p.1 = k' from by
          rw [hp]; exact fun hh => h hh.symm)]
      exact ih
    · rw [List.map_cons, if_neg hp, alLookup_cons, alLookup_cons, ih]

theorem alLookup_append_single_self {κ ν : Type} [DecidableEq κ]
    (k : κ) (v : ν) :
    ∀ l : List (κ × ν), l.any (fun q => q.1 = k) = false →
    alLookup (l ++ [(k, v)]) k = some v := by
  intro l
  induction l with
  | nil =>
    intro _
    rw [List.nil_append, alLookup_cons]
    simp
  | cons p l ih =>
    intro hany
    simp only [List.any_cons, Bool.or_eq_false_iff,
      decide_eq_false_iff_not] at hany
    rw [List.cons_append, alLookup_cons, if_neg hany.1]
    exact ih hany.2

theorem alLookup_append_single_ne {κ ν : Type} [DecidableEq κ]
    (k k' : κ) (v : ν) (h : k' ≠ k) :
    ∀ l : List (κ × ν), alLookup (l ++ [(k, v)]) k' = alLookup l k' := by
  intro l
  induction l with
  | nil =>
    rw [List.nil_append, alLookup_cons,
      if_neg (show ¬ (k, v).1 = k' from fun hh => h hh.symm)]
  | cons p l ih =>
    rw [List.cons_append, alLookup_cons, alLookup_cons, ih]

theorem alLookup_insert_self {κ ν : Type} [DecidableEq κ]
    (l : List (κ × ν)) (k : κ) (v : ν) :
    alLookup (alInsert l k v) k = some v := by
  unfold alInsert
  by_cases hany : l.any (fun q => q.1 = k)
  · rw [if_pos hany]; exact alLookup_map_update_self k v l hany
  · rw [if_neg hany]
    exact alLookup_append_single_self k v l (Bool.eq_false_iff.mpr hany)

theorem alLookup_insert_ne {κ ν : Type} [DecidableEq κ]
    (l : List (κ × ν)) (k k' : κ) (v : ν) (h : k' ≠ k) :
    alLookup (alInsert l k v) k' = alLookup l k' := by
  unfold alInsert
  by_cases hany : l.any (fun q => q.1 = k)
  · rw [if_pos hany]; exact alLookup_map_update_ne k k' v h l
  · rw [if_neg hany]; exact alLookup_append_single_ne k k' v h l

theorem alInsert_keys {κ ν : Type} [DecidableEq κ]
    (l : List (κ × ν)) (k : κ) (v : ν) :
    (alInsert l k v).map Prod.fst =
      if l.any (fun q => q.1 = k) then l.map Prod.fst
      else l.map Prod.fst ++ [k] := by
  unfold alInsert
  by_cases hany : l.any (fun q => q.1 = k)
  · rw [if_pos hany, if_pos hany, List.map_map]
    apply List.map_congr_left
    intro p _
    by_cases hp : p.1 = k <;> simp [hp]
  · rw [if_neg hany, if_neg hany]; simp

theorem alInsert_keys_nodup {κ ν : Type} [DecidableEq κ]
    (l : List (κ × ν)) (k : κ) (v : ν)
    (h : (l.map Prod.fst).Nodup) :
    ((alInsert l k v).map Prod.fst).Nodup := by
  rw [alInsert_keys]
  by_cases hany : l.any (fun q => q.1 = k)
  · rwa [if_pos hany]
  · rw [if_neg hany]
    have hk : k ∉ l.map Prod.fst := by
      intro hmem
      obtain ⟨p, hp, hpk⟩ := List.mem_map.mp hmem
      exact hany (List.any_eq_true.mpr ⟨p, hp, by simp [hpk]⟩)
    exact List.Nodup.append h (List.nodup_singleton k)
      (fun x hx hx' => by
        simp only [List.mem_singleton] at hx'
        exact hk (hx' ▸ hx))

theorem alInsert_forall {κ ν : Type} [DecidableEq κ]
    (P : κ → ν → Prop) (l : List (κ × ν)) (k : κ) (v : ν)
    (hl : ∀ p ∈ l, P p.1 p.2) (hv : P k v) :
    ∀ p ∈ alInsert l k v, P p.1 p.2 := by
  unfold alInsert
  by_cases hany : l.any (fun q => q.1 = k)
  · rw [if_pos hany]
    intro p hp
    obtain ⟨q, hq, hqp⟩ := List.mem_map.mp hp
    by_cases hqk : q.1 = k
    · rw [if_pos hqk] at hqp; rw [← hqp]; exact hv
    · rw [if_neg hqk] at hqp; rw [← hqp]; exact hl q hq
  · rw [if_neg hany]
    intro p hp
    rcases List.mem_append.mp hp with hp | hp
    · exact hl p hp
    · simp only [List.mem_singleton] at hp; rw [hp]; exact hv

theorem alLookup_mem {κ ν : Type} [DecidableEq κ]
    {l : List (κ × ν)} {k : κ} {v : ν}
    (h : alLookup l k = some v) : (k, v) ∈ l := by
  unfold alLookup at h
  obtain ⟨p, hp, hpv⟩ := Option.map_eq_some'.mp h
  have hfind := List.find?_some hp
  have hmem := List.mem_of_find?_eq_some hp
  simp only [decide_eq_true_eq] at hfind
  have : p = (k, v) := by
    cases p; simp only at hfind hpv; rw [hfind, hpv]
  rwa [this] at hmem

theorem mem_alLookup {κ ν : Type} [DecidableEq κ]
    {l : List (κ × ν)} {k : κ} {v : ν}
    (hnd : (l.map Prod.fst).Nodup) (h : (k, v) ∈ l) :
    alLookup l k = some v := by
  induction l with
  | nil => cases h
  | cons p l ih =>
    simp only [List.map_cons, List.nodup_cons] at hnd
    rcases List.mem_cons.mp h with h | h
    · rw [← h, alLookup_cons, if_pos rfl]
    · have hp : p.1 ≠ k := by
        intro hpk
        apply hnd.1
        rw [hpk]
        exact List.mem_map.mpr ⟨(k, v), h, rfl⟩
      rw [alLookup_cons, if_neg hp]
      exact ih hnd.2 h

theorem alLookup_prop {κ ν : Type} [DecidableEq κ]
    {P : κ → ν → Prop} {l : List (κ × ν)} {k : κ} {v : ν}
    (hl : ∀ p ∈ l, P p.1 p.2) (h : alLookup l k = some v) : P k v :=
  hl (k, v) (alLookup_mem h)

theorem alLookup_remove_self {κ ν : Type} [DecidableEq κ]
    (l : List (κ × ν)) (k : κ) :
    alLookup (alRemove l k) k = none := by
  induction l with
  | nil => rfl
  | cons p l ih =>
    by_cases hp : p.1 = k
    · simpa [alRemove, List.filter_cons, hp] using ih
    · have he : alRemove (p :: l) k = p :: alRemove l k := by
        simp [alRemove, List.filter_cons, hp]
      rw [he, alLookup_cons, if_neg hp]
      exact ih

theorem alLookup_remove_ne {κ ν : Type} [DecidableEq κ]
    (l : List (κ × ν)) (k k' : κ) (h : k' ≠ k) :
    alLookup (alRemove l k) k' = alLookup l k' := by
  induction l with
  | nil => rfl
  | cons p l ih =>
    by_cases hp : p.1 = k
    · have hpk : p.1 ≠ k' := by rw [hp]; exact fun hh => h hh.symm
      rw [alLookup_cons, if_neg hpk]
      rw [show alRemove (p :: l) k = alRemove l k by
        simp [alRemove, List.filter_cons, hp]]
      exact ih
    · rw [show alRemove (p :: l) k = p :: alRemove l k by
        simp [alRemove, List.filter_cons, hp]]
      rw [alLookup_cons, alLookup_cons, ih]

theorem alLookup_map_cond {κ ν : Type} [DecidableEq κ]
    (c : ν → Bool) (f : ν → ν) (l : List (κ × ν)) (k : κ) :
    alLookup (l.map fun p => if c p.2 then (p.1, f p.2) else p) k =
      (alLookup l k).map (fun v => if c v then f v else v) := by
  induction l with
  | nil => rfl
  | cons p l ih =>
    by_cases hc : c p.2
    · rw [List.map_cons, if_pos hc, alLookup_cons, alLookup_cons]
      by_cases hk : p.1 = k
      · simp only [hk, if_pos rfl]
        simp [hc]
      · simp only [if_neg hk]
        exact ih
    · rw [List.map_cons, if_neg hc, alLookup_cons, alLookup_cons]
      by_cases hk : p.1 = k
      · simp only [if_pos hk]
        simp [hc]
      · simp only [if_neg hk]
        exact ih

theorem map_cond_keys {κ ν : Type} (c : ν → Bool) (f : ν → ν)
    (l : List (κ × ν)) :
    (l.map fun p => if c p.2 then (p.1, f p.2) else p).map Prod.fst =
      l.map Prod.fst := by
  rw [List.map_map]
  apply List.map_congr_left
  intro p _
  by_cases hc : c p.2 <;> simp [hc]

/-! ## C1 — `try_assign_next_task` returns the agent id in the task slot -/

/-- C1 (code evaluated at the failing input): with the single Implementer
`agentA` (id `"A"`) registered and the single task `taskT` (id `"T"`)
queued, `try_assign_next_task` returns `Ok(Some(("A", "A")))` — the second
component is the agent id again, not the assigned task's id `"T"`, although
the declared result type is `Option<(AgentId, TaskId)>`. -/
theorem try_assign_next_returns_agent_id_twice :
    (mgrQueued.try_assign_next_task 1).1 =
      .ok (some ("A", "A")) ∧
    agentA.id = "A" ∧ taskT.id = "T" ∧ ("A" : String) ≠ "T" := by
  refine ⟨by decide, rfl, rfl, by decide⟩

/-! ## C3 — wrong-task `complete_task` mutates state before erroring -/

/-- C3 (code evaluated at the failing input): after `taskT` is assigned to
`agentA`, calling `complete_task("A", "WRONG")` returns the typed error
`TaskNotFound("WRONG")`, yet the agent — `Working` before the call — has
been set to `Idle`, its current task cleared, its completed counter
incremented, and it is still listed in the Implementer active list.  The
claimed error atomicity does not hold. -/
theorem complete_task_wrong_id_mutates :
    (mgrAssigned.complete_task "A" "WRONG" 2).1 =
      .error (.TaskNotFound "WRONG") ∧
    (alLookup mgrAssigned.agents "A").map Agent.status =
      some .Working ∧
    (alLookup (mgrAssigned.complete_task "A" "WRONG" 2).2.agents "A").map
      Agent.status = some .Idle ∧
    (alLookup (mgrAssigned.complete_task "A" "WRONG" 2).2.agents "A").map
      Agent.current_task = some none ∧
    (alLookup (mgrAssigned.complete_task "A" "WRONG" 2).2.agents "A").map
      (fun a => a.metrics.tasks_completed) = some 1 ∧
    "A" ∈ (mgrAssigned.complete_task "A" "WRONG" 2).2.active_agents
      .Implementer := by
  refine ⟨by decide, by decide, by decide, by decide, by decide, by decide⟩

/-! ## C4 — Working ⇔ current task -/

/-- C4 (counterexample): an agent reachable from `Agent::new` by
`assign_task` then `request_help` has status `NeedsSupervision` while its
current task is still set — so `status = Working ⇔ current_task is set`
fails in the ⇐ direction on reachable agents. -/
theorem working_iff_task_fails_after_request_help :
    helpedAgent.status = .NeedsSupervision ∧
    helpedAgent.current_task = some "t1" ∧
    ¬ (helpedAgent.status = .Working ↔ helpedAgent.current_task.isSome) := by
  refine ⟨by decide, by decide, by decide⟩

theorem agentOp_preserves (a : Agent) (op : AgentOp)
    (h1 : a.status = .Working → a.current_task.isSome)
    (h2 : a.status = .Idle → a.current_task = none) :
    ((applyAgentOp a op).status = .Working →
      (applyAgentOp a op).current_task.isSome) ∧
    ((applyAgentOp a op).status = .Idle →
      (applyAgentOp a op).current_task = none) := by
  cases op with
  | assign tid now =>
    by_cases hs : a.status ≠ AgentStatus.Idle
    · have he : applyAgentOp a (.assign tid now) = a := by
        simp [applyAgentOp, Agent.assign_task, hs]
      rw [he]; exact ⟨h1, h2⟩
    · simp [applyAgentOp, Agent.assign_task, hs]
  | complete now =>
    cases hct : a.current_task with
    | none =>
      have he : applyAgentOp a (.complete now) = a := by
        simp [applyAgentOp, Agent.complete_task, hct]
      rw [he]; exact ⟨h1, h2⟩
    | some tid => simp [applyAgentOp, Agent.complete_task, hct]
  | fail err now =>
    cases hct : a.current_task with
    | none =>
      have he : applyAgentOp a (.fail err now) = a := by
        simp [applyAgentOp, Agent.fail_task, hct]
      rw [he]; exact ⟨h1, h2⟩
    | some tid => simp [applyAgentOp, Agent.fail_task, hct]
  | requestHelp now => simp [applyAgentOp, Agent.request_help]
  | markActivity now => exact ⟨h1, h2⟩

/-- C4 (amended): for every agent reachable from `Agent::new` by the
lifecycle operations, a `Working` agent has a current task and an `Idle`
agent has none (the ⇒ direction plus the `Idle` direction; the full ⇔
fails, see the counterexample). -/
theorem agent_status_task_invariant (id : AgentId) (role : AgentRole)
    (pane now0 : Nat) (ops : List AgentOp) :
    ((applyAgentOps (Agent.new id role pane now0) ops).status = .Working →
      (applyAgentOps (Agent.new id role pane now0) ops).current_task.isSome) ∧
    ((applyAgentOps (Agent.new id role pane now0) ops).status = .Idle →
      (applyAgentOps (Agent.new id role pane now0) ops).current_task =
        none) := by
  have main : ∀ (ops : List AgentOp) (a : Agent),
      (a.status = .Working → a.current_task.isSome) →
      (a.status = .Idle → a.current_task = none) →
      ((applyAgentOps a ops).status = .Working →
        (applyAgentOps a ops).current_task.isSome) ∧
      ((applyAgentOps a ops).status = .Idle →
        (applyAgentOps a ops).current_task = none) := by
    intro ops
    induction ops with
    | nil => intro a h1 h2; exact ⟨h1, h2⟩
    | cons op ops ih =>
      intro a h1 h2
      have hstep := agentOp_preserves a op h1 h2
      exact ih (applyAgentOp a op) hstep.1 hstep.2
  exact main ops (Agent.new id role pane now0)
    (by intro h; exact absurd h (by simp [Agent.new]))
    (by intro _; rfl)

/-- Witness for C4 (amended): a freshly created agent to whom a task was
assigned is `Working` and indeed holds a task. -/
theorem agent_status_task_invariant_witness :
    (applyAgentOps (Agent.new "A" .Implementer 1 0)
      [.assign "t" 1]).current_task.isSome = true :=
  (agent_status_task_invariant "A" .Implementer 1 0 [.assign "t" 1]).1
    (by decide)

/-! ## C9 — `register_agent` is total and replaces silently -/

/-- C9: `register_agent` always returns `Ok(())`; it stores (or, for a
duplicate id, silently replaces) the agent record under `agent.id`, leaves
every other agent record untouched, and leaves the active list of every role
unchanged (the source's only touch of `active_agents` is initialising an
absent role entry to an empty vector, invisible to all `unwrap_or`-style
reads). -/
theorem register_agent_total_and_replaces (m : WorkshopManager)
    (agent : Agent) :
    (m.register_agent agent).1 = .ok () ∧
    alLookup (m.register_agent agent).2.agents agent.id = some agent ∧
    (∀ id, id ≠ agent.id →
      alLookup (m.register_agent agent).2.agents id =
        alLookup m.agents id) ∧
    (∀ r, (m.register_agent agent).2.active_agents r =
      m.active_agents r) ∧
    (m.register_agent agent).2.task_queue = m.task_queue ∧
    (m.register_agent agent).2.completed_tasks = m.completed_tasks := by
  refine ⟨rfl, ?_, ?_, fun _ => rfl, rfl, rfl⟩
  · exact alLookup_insert_self m.agents agent.id agent
  · intro id hid
    exact alLookup_insert_ne m.agents agent.id id agent hid

/-- Witness for C9: re-registering id `"A"` (as `agentA2`) over a state in
which the original `"A"` is `Working` succeeds, replaces the stored record,
and leaves `"A"` in the Implementer active list. -/
theorem register_agent_total_and_replaces_witness :
    alLookup (mgrAssigned.register_agent agentA2).2.agents "A" =
      some agentA2 ∧
    (mgrAssigned.register_agent agentA2).2.active_agents .Implementer =
      mgrAssigned.active_agents .Implementer := by
  have h := register_agent_total_and_replaces mgrAssigned agentA2
  exact ⟨h.2.1, h.2.2.2.1 .Implementer⟩

/-! ## C5 — retry errors are wrapped, not propagated unchanged -/

/-- C5 (counterexample): with `agentA` registered, executing `taskFatal`
(whose single attempts always fail with the non-retryable `Fatal`) makes
`execute_task_with_retry` return `WorkshopError::TaskNotFound("Retry
failed: NonRetryable(Fatal)")` — not the retry error `NonRetryable(Fatal)`
unchanged, and not `AgentNotFound`. -/
theorem exec_retry_wraps_error_concrete :
    (mgrRegistered.execute_task_with_retry "A" taskFatal 3).1 =
      .error (.TaskNotFound "Retry failed: NonRetryable(Fatal)") := by
  decide

/-- C5 (amended): every error of `execute_task_with_retry` is either
`AgentNotFound` for an unknown agent id, or — whenever the retry layer
fails — `TaskNotFound` carrying the string `"Retry failed: "` followed by
the `Debug` rendering of the retry error. -/
theorem exec_retry_error_forms (m : WorkshopManager) (agent_id : AgentId)
    (task : Task) (now : Nat) (e : WorkshopError)
    (h : (m.execute_task_with_retry agent_id task now).1 = .error e) :
    (alLookup m.agents agent_id = none ∧ e = .AgentNotFound agent_id) ∨
    (∃ a re, alLookup m.agents agent_id = some a ∧
      RetryExecutor.execute_task m.retry_policy a task = .error re ∧
      e = .TaskNotFound ("Retry failed: " ++ re.debugStr)) := by
  unfold WorkshopManager.execute_task_with_retry at h
  cases hl : alLookup m.agents agent_id with
  | none =>
    simp only [hl] at h
    left
    have h' : Except.error (WorkshopError.AgentNotFound agent_id) =
        Except.error (α := TaskResult) e := h
    injection h' with h'
    exact ⟨rfl, h'.symm⟩
  | some a =>
    simp only [hl] at h
    cases hr : RetryExecutor.execute_task m.retry_policy a task with
    | error re =>
      simp only [hr] at h
      right
      refine ⟨a, re, rfl, hr, ?_⟩
      have h' : Except.error
          (WorkshopError.TaskNotFound ("Retry failed: " ++ re.debugStr)) =
          Except.error (α := TaskResult) e := h
      injection h' with h'
      exact h'.symm
    | ok r =>
      simp only [hr] at h
      have h' : Except.ok (ε := WorkshopError) r =
          Except.error (α := TaskResult) e := h
      cases h'

/-- Witness for C5 (amended), at the concrete `Fatal` scenario. -/
theorem exec_retry_error_forms_witness :
    (alLookup mgrRegistered.agents "A" = none ∧
      WorkshopError.TaskNotFound "Retry failed: NonRetryable(Fatal)" =
        .AgentNotFound "A") ∨
    (∃ a re, alLookup mgrRegistered.agents "A" = some a ∧
      RetryExecutor.execute_task mgrRegistered.retry_policy a taskFatal =
        .error re ∧
      WorkshopError.TaskNotFound "Retry failed: NonRetryable(Fatal)" =
        .TaskNotFound ("Retry failed: " ++ re.debugStr)) :=
  exec_retry_error_forms mgrRegistered "A" taskFatal 3 _ (by decide)

/-! ## C6 — `handle_response` error and success behaviour -/

/-- C6 (counterexample): with an active request for `"A"` whose only option
id is 1, `handle_response("A", 99)` fails with `InvalidOption(99)` — but
the active request has been removed, so the supervision state is *not*
unchanged on this failure. -/
theorem handle_response_invalid_option_drops_request :
    (supWithA.handle_supervision_response "A" 99 5).1 =
      .error (.InvalidOption 99) ∧
    supWithA.get_active_request "A" = some reqA ∧
    (supWithA.handle_supervision_response "A" 99 5).2.get_active_request
      "A" = none := by
  refine ⟨by decide, by decide, by decide⟩

/-- C6 (amended): `handle_response` fails with `AgentNotFound` when no
active request exists, leaving the state unchanged; it fails with
`InvalidOption` when the option id matches no option of the request, *with
the request already removed* (and no event appended); when the option
exists it removes exactly the one request for that agent, appends exactly
one `Selected` (`OptionSelected`) event, and returns the chosen option's
action. -/
theorem handle_response_characterisation (s : SupervisionSystem)
    (agent_id : AgentId) (option_id now : Nat) :
    (alLookup s.active_requests agent_id = none →
      s.handle_supervision_response agent_id option_id now =
        (.error (.AgentNotFound agent_id), s)) ∧
    (∀ req, alLookup s.active_requests agent_id = some req →
      (req.options.find? (fun o => o.id = option_id) = none →
        (s.handle_supervision_response agent_id option_id now).1 =
          .error (.InvalidOption option_id) ∧
        (s.handle_supervision_response agent_id option_id
          now).2.active_requests = alRemove s.active_requests agent_id ∧
        (s.handle_supervision_response agent_id option_id
          now).2.supervision_history = s.supervision_history) ∧
      (∀ o, req.options.find? (fun o => o.id = option_id) = some o →
        (s.handle_supervision_response agent_id option_id now).1 =
          .ok o.action ∧
        alLookup (s.handle_supervision_response agent_id option_id
          now).2.active_requests agent_id = none ∧
        (∀ id, id ≠ agent_id →
          alLookup (s.handle_supervision_response agent_id option_id
            now).2.active_requests id = alLookup s.active_requests id) ∧
        (s.handle_supervision_response agent_id option_id
          now).2.supervision_history = s.supervision_history ++
          [{ agent_id := agent_id, event_type := .OptionSelected,
             context := "Selected option " ++ toString option_id ++ ": " ++
               o.text,
             timestamp := now, resolution := some o.action }])) := by
  cases hl : alLookup s.active_requests agent_id with
  | none =>
    constructor
    · intro _
      simp [SupervisionSystem.handle_supervision_response, hl]
    · intro req hreq
      cases hreq
  | some req =>
    constructor
    · intro hnone
      cases hnone
    · intro req' hreq'
      injection hreq' with hreq'
      subst hreq'
      constructor
      · intro hf
        refine ⟨?_, ?_, ?_⟩ <;>
          simp [SupervisionSystem.handle_supervision_response, hl, hf]
      · intro o hf
        refine ⟨?_, ?_, ?_, ?_⟩
        · simp [SupervisionSystem.handle_supervision_response, hl, hf]
        · simp only [SupervisionSystem.handle_supervision_response, hl, hf]
          exact alLookup_remove_self s.active_requests agent_id
        · intro id hid
          simp only [SupervisionSystem.handle_supervision_response, hl, hf]
          exact alLookup_remove_ne s.active_requests agent_id id hid
        · simp [SupervisionSystem.handle_supervision_response, hl, hf]

/-- Witness for C6 (amended): the success path at the concrete state,
option 1. -/
theorem handle_response_characterisation_witness :
    (supWithA.handle_supervision_response "A" 1 5).1 =
      .ok optGuide.action ∧
    alLookup (supWithA.handle_supervision_response "A" 1
      5).2.active_requests "A" = none ∧
    (supWithA.handle_supervision_response "A" 1 5).2.supervision_history =
      supWithA.supervision_history ++
      [{ agent_id := "A", event_type := .OptionSelected,
         context := "Selected option " ++ toString 1 ++ ": " ++
           optGuide.text,
         timestamp := 5, resolution := some optGuide.action }] := by
  have h := ((handle_response_characterisation supWithA "A" 1 5).2 reqA
    (by decide)).2 optGuide (by decide)
  exact ⟨h.1, h.2.1, h.2.2.2⟩

/-! ## C7 — backoff monotonicity and cap -/

/-- C7 (counterexample): `halvingPolicy` has multiplier `1/2 > 0`, yet its
backoff strictly *decreases* from attempt 1 to attempt 2 — so the claim's
monotonicity for every multiplier `> 0` is false. -/
theorem backoff_not_monotone_for_positive_multiplier :
    0 < halvingPolicy.backoff_multiplier ∧
    halvingPolicy.calculate_backoff 2 <
      halvingPolicy.calculate_backoff 1 := by
  constructor
  · norm_num [halvingPolicy]
  · norm_num [halvingPolicy, RetryPolicy.calculate_backoff]

/-- C7 (amended): for every policy whose multiplier is at least 1 (and with
the non-negativity that the Rust `Duration` fields guarantee), the computed
backoff is non-decreasing in the attempt index, capped by `max_backoff`,
and zero at attempt 0. -/
theorem backoff_monotone_capped (p : RetryPolicy)
    (hmul : 1 ≤ p.backoff_multiplier)
    (hinit : 0 ≤ p.initial_backoff)
    (hmax : 0 ≤ p.max_backoff) :
    (∀ n m, n ≤ m → p.calculate_backoff n ≤ p.calculate_backoff m) ∧
    (∀ n, p.calculate_backoff n ≤ p.max_backoff) ∧
    p.calculate_backoff 0 = 0 := by
  have hmul0 : (0 : ℚ) ≤ p.backoff_multiplier :=
    le_trans zero_le_one hmul
  refine ⟨?_, ?_, by simp [RetryPolicy.calculate_backoff]⟩
  · intro n m hnm
    unfold RetryPolicy.calculate_backoff
    by_cases hn : n = 0
    · rw [if_pos hn]
      by_cases hm : m = 0
      · rw [if_pos hm]
      · rw [if_neg hm]
        exact le_min (mul_nonneg hinit (pow_nonneg hmul0 _)) hmax
    · have hm : m ≠ 0 := by omega
      rw [if_neg hn, if_neg hm]
      apply min_le_min _ le_rfl
      apply mul_le_mul_of_nonneg_left _ hinit
      exact pow_le_pow_right₀ hmul (by omega)
  · intro n
    unfold RetryPolicy.calculate_backoff
    by_cases hn : n = 0
    · rw [if_pos hn]; exact hmax
    · rw [if_neg hn]; exact min_le_right _ _

/-- Witness for C7 (amended), at the default policy. -/
theorem backoff_monotone_capped_witness :
    RetryPolicy.default.calculate_backoff 1 ≤
      RetryPolicy.default.calculate_backoff 3 ∧
    RetryPolicy.default.calculate_backoff 5 ≤
      RetryPolicy.default.max_backoff ∧
    RetryPolicy.default.calculate_backoff 0 = 0 := by
  have h := backoff_monotone_capped RetryPolicy.default
    (by norm_num [RetryPolicy.default])
    (by norm_num [RetryPolicy.default])
    (by norm_num [RetryPolicy.default])
  exact ⟨h.1 1 3 (by norm_num), h.2.1 5, h.2.2⟩

/-! ## C8 — priority-ordered, stable queue insertion -/

theorem TaskPriority.le_of_lt {a b : TaskPriority} (h : a < b) : a ≤ b :=
  Nat.le_of_lt h

theorem TaskPriority.le_of_not_lt {a b : TaskPriority} (h : ¬ a < b) :
    b ≤ a :=
  Nat.le_of_not_lt h

theorem TaskPriority.le_trans {a b c : TaskPriority} (h1 : a ≤ b)
    (h2 : b ≤ c) : a ≤ c :=
  Nat.le_trans h1 h2

theorem TaskPriority.le_refl (a : TaskPriority) : a ≤ a :=
  Nat.le_refl _

theorem TaskPriority.lt_of_le_of_lt {a b c : TaskPriority} (h1 : a ≤ b)
    (h2 : b < c) : a < c :=
  Nat.lt_of_le_of_lt h1 h2

theorem TaskPriority.not_lt_self (a : TaskPriority) : ¬ a < a :=
  Nat.lt_irrefl _

theorem queue_task_queue_eq (m : WorkshopManager) (t : Task) :
    (m.queue_task t).task_queue = insertByPriority m.task_queue t := rfl

theorem insertByPriority_eq_insertRec (t : Task) :
    ∀ q : List Task, insertByPriority q t = insertRec t q := by
  intro q
  induction q with
  | nil => rfl
  | cons u q ih =>
    unfold insertByPriority insertRec
    rw [List.findIdx_cons]
    by_cases hu : u.context.priority < t.context.priority
    · simp only [hu, decide_eq_true_eq, if_pos]
      simp [hu]
    · have : (decide (u.context.priority < t.context.priority)) = false := by
        simp [hu]
      rw [this]
      simp only [Bool.false_eq_true, if_false, cond_false]
      rw [List.take_succ_cons, List.drop_succ_cons, if_neg hu]
      simp only [List.cons_append]
      rw [← ih]
      rfl

theorem mem_insertRec (t x : Task) :
    ∀ q : List Task, x ∈ insertRec t q ↔ x = t ∨ x ∈ q := by
  intro q
  induction q with
  | nil => simp [insertRec]
  | cons u q ih =>
    unfold insertRec
    by_cases hu : u.context.priority < t.context.priority
    · rw [if_pos hu]
      simp only [List.mem_cons]
    · rw [if_neg hu]
      simp only [List.mem_cons, ih]
      tauto

theorem pairwise_insertRec (t : Task) :
    ∀ q : List Task,
    List.Pairwise (fun a b => b.context.priority ≤ a.context.priority) q →
    List.Pairwise (fun a b => b.context.priority ≤ a.context.priority)
      (insertRec t q) := by
  intro q
  induction q with
  | nil => intro _; simp [insertRec]
  | cons u q ih =>
    intro h
    rw [List.pairwise_cons] at h
    unfold insertRec
    by_cases hu : u.context.priority < t.context.priority
    · rw [if_pos hu]
      refine List.Pairwise.cons ?_ (List.Pairwise.cons h.1 h.2)
      intro x hx
      rcases List.mem_cons.mp hx with hx | hx
      · rw [hx]; exact TaskPriority.le_of_lt hu
      · exact TaskPriority.le_trans (h.1 x hx) (TaskPriority.le_of_lt hu)
    · rw [if_neg hu]
      refine List.Pairwise.cons ?_ (ih h.2)
      intro x hx
      rcases (mem_insertRec t x q).mp hx with hx | hx
      · rw [hx]; exact TaskPriority.le_of_not_lt hu
      · exact h.1 x hx

theorem filter_insertRec_ne (t : Task) (p : TaskPriority)
    (hne : ¬ t.context.priority = p) :
    ∀ q : List Task,
    (insertRec t q).filter (fun u => u.context.priority = p) =
      q.filter (fun u => u.context.priority = p) := by
  intro q
  induction q with
  | nil => simp [insertRec, hne]
  | cons u q ih =>
    unfold insertRec
    by_cases hu : u.context.priority < t.context.priority
    · rw [if_pos hu]
      simp [List.filter_cons, hne]
    · rw [if_neg hu]
      simp only [List.filter_cons, ih]

theorem filter_insertRec_eq (t : Task) (p : TaskPriority)
    (hp : t.context.priority = p) :
    ∀ q : List Task,
    List.Pairwise (fun a b => b.context.priority ≤ a.context.priority) q →
    (insertRec t q).filter (fun u => u.context.priority = p) =
      q.filter (fun u => u.context.priority = p) ++ [t] := by
  intro q
  induction q with
  | nil => simp [insertRec, hp]
  | cons u q ih =>
    intro hsort
    rw [List.pairwise_cons] at hsort
    unfold insertRec
    by_cases hu : u.context.priority < t.context.priority
    · rw [if_pos hu]
      have hnil : (u :: q).filter (fun w => w.context.priority = p) = [] := by
        rw [List.filter_eq_nil_iff]
        intro x hx
        have hxle : x.context.priority ≤ u.context.priority := by
          rcases List.mem_cons.mp hx with hx | hx
          · rw [hx]; exact TaskPriority.le_refl _
          · exact hsort.1 x hx
        have hlt : x.context.priority < t.context.priority :=
          TaskPriority.lt_of_le_of_lt hxle hu
        simp only [decide_eq_true_eq]
        intro hxp
        rw [hxp, ← hp] at hlt
        exact TaskPriority.not_lt_self _ hlt
      rw [List.filter_cons, hnil]
      simp [hp]
    · rw [if_neg hu]
      rw [List.filter_cons, List.filter_cons, ih hsort.2]
      by_cases hup : u.context.priority = p
      · simp [hup]
      · simp [hup]

theorem foldl_queue_task_queue (ts : List Task) :
    ∀ m : WorkshopManager,
    (ts.foldl (fun m t => m.queue_task t) m).task_queue =
      ts.foldl (fun q t => insertRec t q) m.task_queue := by
  induction ts with
  | nil => intro m; rfl
  | cons t ts ih =>
    intro m
    rw [List.foldl_cons, List.foldl_cons, ih, queue_task_queue_eq,
      insertByPriority_eq_insertRec]

theorem foldl_insertRec_sorted_stable (ts : List Task) :
    ∀ q : List Task,
    List.Pairwise (fun a b => b.context.priority ≤ a.context.priority) q →
    List.Pairwise (fun a b => b.context.priority ≤ a.context.priority)
      (ts.foldl (fun q t => insertRec t q) q) ∧
    ∀ p, (ts.foldl (fun q t => insertRec t q) q).filter
        (fun u => u.context.priority = p) =
      q.filter (fun u => u.context.priority = p) ++
        ts.filter (fun u => u.context.priority = p) := by
  induction ts with
  | nil => intro q hq; exact ⟨hq, fun p => by simp⟩
  | cons t ts ih =>
    intro q hq
    rw [List.foldl_cons]
    have hq' := pairwise_insertRec t q hq
    refine ⟨(ih _ hq').1, fun p => ?_⟩
    rw [(ih _ hq').2 p, List.filter_cons]
    by_cases hp : t.context.priority = p
    · rw [filter_insertRec_eq t p hp q hq]
      simp [hp, List.append_assoc]
    · rw [filter_insertRec_ne t p hp q]
      simp [hp]

/-- C8: starting from a fresh manager, after any sequence of `queue_task`
calls the queue is ordered by non-increasing priority, and within each
priority the tasks appear in FIFO (insertion) order — `queue_task` inserts
each task immediately before the first queued task of strictly lower
priority (at the back when none exists). -/
theorem queue_task_priority_order (ts : List Task) :
    List.Pairwise (fun a b => b.context.priority ≤ a.context.priority)
      ((ts.foldl (fun m t => m.queue_task t)
        WorkshopManager.new).task_queue) ∧
    ∀ p, ((ts.foldl (fun m t => m.queue_task t)
        WorkshopManager.new).task_queue).filter
        (fun u => u.context.priority = p) =
      ts.filter (fun u => u.context.priority = p) := by
  rw [foldl_queue_task_queue]
  have h := foldl_insertRec_sorted_stable ts
    (WorkshopManager.new.task_queue) (by constructor)
  refine ⟨h.1, fun p => ?_⟩
  rw [h.2 p]
  rfl

/-! ## Characterisation lemmas for the agent mutators -/

theorem Agent.assign_task_ok {a : Agent} {tid : TaskId} {now : Nat}
    {a' : Agent} (h : a.assign_task tid now = .ok a') :
    a.status = .Idle ∧
    a' = { a with current_task := some tid, status := .Working,
                  last_activity := now } := by
  unfold Agent.assign_task at h
  by_cases hs : a.status ≠ AgentStatus.Idle
  · rw [if_pos hs] at h; cases h
  · rw [if_neg hs] at h
    injection h with h
    exact ⟨not_not.mp hs, h.symm⟩

theorem Agent.complete_task_ok {a : Agent} {now : Nat} {tid : TaskId}
    {a' : Agent} (h : a.complete_task now = .ok (tid, a')) :
    a.current_task = some tid ∧ a'.id = a.id ∧ a'.role = a.role ∧
    a'.status = .Idle ∧ a'.current_task = none := by
  unfold Agent.complete_task at h
  cases hc : a.current_task with
  | none => rw [hc] at h; cases h
  | some t0 =>
    rw [hc] at h
    injection h with h
    injection h with h1 h2
    refine ⟨by rw [h1], ?_, ?_, ?_, ?_⟩ <;> rw [← h2]

theorem Agent.fail_task_ok {a : Agent} {err : String} {now : Nat}
    {tid : TaskId} {a' : Agent} (h : a.fail_task err now = .ok (tid, a')) :
    a.current_task = some tid ∧ a'.id = a.id ∧ a'.role = a.role ∧
    a'.status = .Error ∧ a'.current_task = none := by
  unfold Agent.fail_task at h
  cases hc : a.current_task with
  | none => rw [hc] at h; cases h
  | some t0 =>
    rw [hc] at h
    injection h with h
    injection h with h1 h2
    refine ⟨by rw [h1], ?_, ?_, ?_, ?_⟩ <;> rw [← h2]

/-! ## State-shape lemmas for the scheduler operations -/

theorem assign_task_cases (m : WorkshopManager) (t : Task) (now : Nat) :
    (m.assign_task t now).2 = m ∨
    ∃ aid a0, m.find_available_agent t.required_role = some aid ∧
      alLookup m.agents aid = some a0 ∧ a0.status = .Idle ∧
      (m.assign_task t now).2 = { m with
        agents := alInsert m.agents aid
          { a0 with current_task := some t.id, status := .Working,
                    last_activity := now },
        active_agents := fun r =>
          if r = t.required_role then m.active_agents r ++ [aid]
          else m.active_agents r,
        metrics := { m.metrics with
          queue_length := m.task_queue.length } } := by
  cases hf : m.find_available_agent t.required_role with
  | none => left; simp only [WorkshopManager.assign_task, hf]
  | some aid =>
    cases hl : alLookup m.agents aid with
    | none => left; simp only [WorkshopManager.assign_task, hf, hl]
    | some a0 =>
      cases ha : a0.assign_task t.id now with
      | error e => left; simp only [WorkshopManager.assign_task, hf, hl, ha]
      | ok a1 =>
        right
        obtain ⟨hidle, ha1⟩ := Agent.assign_task_ok ha
        refine ⟨aid, a0, by simp [hf], by simp [hl], hidle, ?_⟩
        simp only [WorkshopManager.assign_task, hf, hl, ha]
        rw [ha1]

theorem try_assign_next_cases (m : WorkshopManager) (now : Nat) :
    (m.try_assign_next_task now).2 = m ∨
    ∃ index task, m.find_assignable_task = some (index, task) ∧
      (m.try_assign_next_task now).2 =
        ({ m with task_queue := m.task_queue.eraseIdx index }.assign_task
          task now).2 := by
  cases hf : m.find_assignable_task with
  | none => left; simp only [WorkshopManager.try_assign_next_task, hf]
  | some it =>
    obtain ⟨index, task⟩ := it
    right
    refine ⟨index, task, by simp [hf], ?_⟩
    cases hr : ({ m with task_queue := m.task_queue.eraseIdx index
        }.assign_task task now) with
    | mk r m2 =>
      cases r <;>
        simp only [WorkshopManager.try_assign_next_task, hf, hr]

theorem assign_by_priority_cases (m : WorkshopManager) (now : Nat) :
    (m.assign_by_priority now).2 = m.prioritize_task_queue ∨
    ∃ index task,
      ((m.prioritize_task_queue.task_queue.enum.find? (fun p =>
          p.2.dependencies_satisfied
            m.prioritize_task_queue.completed_tasks &&
          (m.prioritize_task_queue.find_best_agent_for_task p.2).isSome)) =
        some (index, task)) ∧
      (m.assign_by_priority now).2 =
        ({ m.prioritize_task_queue with
            task_queue :=
              m.prioritize_task_queue.task_queue.eraseIdx index
          }.assign_task task now).2 := by
  cases hf : m.prioritize_task_queue.task_queue.enum.find? (fun p =>
      p.2.dependencies_satisfied m.prioritize_task_queue.completed_tasks &&
      (m.prioritize_task_queue.find_best_agent_for_task p.2).isSome) with
  | none => left; simp only [WorkshopManager.assign_by_priority, hf]
  | some it =>
    obtain ⟨index, task⟩ := it
    right
    refine ⟨index, task, by simp [hf], ?_⟩
    cases hr : ({ m.prioritize_task_queue with
        task_queue := m.prioritize_task_queue.task_queue.eraseIdx index
        }.assign_task task now) with
    | mk r m2 =>
      cases r <;>
        simp only [WorkshopManager.assign_by_priority, hf, hr]

theorem complete_task_cases (m : WorkshopManager) (agent_id : AgentId)
    (task_id : TaskId) (now : Nat) :
    (m.complete_task agent_id task_id now).2 = m ∨
    ∃ b t0 b', alLookup m.agents agent_id = some b ∧
      b.current_task = some t0 ∧ b'.id = b.id ∧ b'.role = b.role ∧
      b'.status = .Idle ∧
      (m.complete_task agent_id task_id now).2.agents =
        alInsert m.agents agent_id b' ∧
      (m.complete_task agent_id task_id now).2.max_concurrent =
        m.max_concurrent ∧
      ((t0 ≠ task_id ∧
        (m.complete_task agent_id task_id now).2.active_agents =
          m.active_agents) ∨
       (t0 = task_id ∧
        (m.complete_task agent_id task_id now).2.active_agents = fun r =>
          if r = b'.role then
            (m.active_agents r).filter (fun x => x ≠ agent_id)
          else m.active_agents r)) := by
  cases hl : alLookup m.agents agent_id with
  | none => left; simp only [WorkshopManager.complete_task, hl]
  | some b =>
    cases hc : b.complete_task now with
    | error e => left; simp only [WorkshopManager.complete_task, hl, hc]
    | ok pr =>
      obtain ⟨t0, b'⟩ := pr
      obtain ⟨hbt, hid, hrole, hstatus, hcurr⟩ := Agent.complete_task_ok hc
      right
      refine ⟨b, t0, b', by simp [hl], hbt, hid, hrole, hstatus,
        ?_, ?_, ?_⟩ <;> by_cases ht : t0 = task_id
      · simp only [WorkshopManager.complete_task,
          WorkshopManager.update_metrics, hl, hc]
        simp [ht]
      · simp only [WorkshopManager.complete_task, hl, hc]
        simp [ht]
      · simp only [WorkshopManager.complete_task,
          WorkshopManager.update_metrics, hl, hc]
        simp [ht]
      · simp only [WorkshopManager.complete_task, hl, hc]
        simp [ht]
      · refine Or.inr ⟨ht, ?_⟩
        simp only [WorkshopManager.complete_task,
          WorkshopManager.update_metrics, hl, hc]
        simp [ht]
      · refine Or.inl ⟨ht, ?_⟩
        simp only [WorkshopManager.complete_task, hl, hc]
        simp [ht]

theorem fail_task_cases (m : WorkshopManager) (agent_id : AgentId)
    (task_id : TaskId) (err : String) (now : Nat) :
    (m.fail_task agent_id task_id err now).2 = m ∨
    ∃ b t0 b', alLookup m.agents agent_id = some b ∧
      b.current_task = some t0 ∧ b'.id = b.id ∧ b'.role = b.role ∧
      b'.status = .Error ∧
      (m.fail_task agent_id task_id err now).2.agents =
        alInsert m.agents agent_id b' ∧
      (m.fail_task agent_id task_id err now).2.max_concurrent =
        m.max_concurrent ∧
      ((t0 ≠ task_id ∧
        (m.fail_task agent_id task_id err now).2.active_agents =
          m.active_agents) ∨
       (t0 = task_id ∧
        (m.fail_task agent_id task_id err now).2.active_agents = fun r =>
          if r = b'.role then
            (m.active_agents r).filter (fun x => x ≠ agent_id)
          else m.active_agents r)) := by
  cases hl : alLookup m.agents agent_id with
  | none => left; simp only [WorkshopManager.fail_task, hl]
  | some b =>
    cases hc : b.fail_task err now with
    | error e => left; simp only [WorkshopManager.fail_task, hl, hc]
    | ok pr =>
      obtain ⟨t0, b'⟩ := pr
      obtain ⟨hbt, hid, hrole, hstatus, hcurr⟩ := Agent.fail_task_ok hc
      right
      refine ⟨b, t0, b', by simp [hl], hbt, hid, hrole, hstatus,
        ?_, ?_, ?_⟩ <;> by_cases ht : t0 = task_id
      · simp only [WorkshopManager.fail_task,
          WorkshopManager.update_metrics, hl, hc]
        simp [ht]
      · simp only [WorkshopManager.fail_task, hl, hc]
        simp [ht]
      · simp only [WorkshopManager.fail_task,
          WorkshopManager.update_metrics, hl, hc]
        simp [ht]
      · simp only [WorkshopManager.fail_task, hl, hc]
        simp [ht]
      · refine Or.inr ⟨ht, ?_⟩
        simp only [WorkshopManager.fail_task,
          WorkshopManager.update_metrics, hl, hc]
        simp [ht]
      · refine Or.inl ⟨ht, ?_⟩
        simp only [WorkshopManager.fail_task, hl, hc]
        simp [ht]

theorem execute_retry_state (m : WorkshopManager) (agent_id : AgentId)
    (task : Task) (now : Nat) :
    (m.execute_task_with_retry agent_id task now).2.agents = m.agents ∧
    (m.execute_task_with_retry agent_id task now).2.active_agents =
      m.active_agents ∧
    (m.execute_task_with_retry agent_id task now).2.max_concurrent =
      m.max_concurrent := by
  cases hl : alLookup m.agents agent_id with
  | none =>
    refine ⟨?_, ?_, ?_⟩ <;>
      simp only [WorkshopManager.execute_task_with_retry, hl]
  | some a =>
    cases hr : RetryExecutor.execute_task m.retry_policy a task with
    | error e =>
      refine ⟨?_, ?_, ?_⟩ <;>
        simp only [WorkshopManager.execute_task_with_retry, hl, hr]
    | ok r =>
      refine ⟨?_, ?_, ?_⟩ <;>
        simp only [WorkshopManager.execute_task_with_retry,
          WorkshopManager.update_agent_expertise, hl, hr]

theorem check_stuck_agents_keys (m : WorkshopManager) (th now : Nat) :
    ((m.check_for_stuck_agents th now).2.agents).map Prod.fst =
      m.agents.map Prod.fst := by
  show ((m.agents.map fun p =>
    if p.2.is_stuck th now then (p.1, p.2.request_help now)
    else p).map Prod.fst) = m.agents.map Prod.fst
  exact map_cond_keys (fun v => v.is_stuck th now)
    (fun v => v.request_help now) m.agents

theorem check_stuck_agents_lookup (m : WorkshopManager) (th now : Nat)
    (k : AgentId) :
    alLookup (m.check_for_stuck_agents th now).2.agents k =
      (alLookup m.agents k).map
        (fun v => if v.is_stuck th now then v.request_help now else v) := by
  show alLookup (m.agents.map fun p =>
    if p.2.is_stuck th now then (p.1, p.2.request_help now) else p) k = _
  exact alLookup_map_cond (fun v => v.is_stuck th now)
    (fun v => v.request_help now) m.agents k

/-! ## C10 — `Error` status is a sink -/

theorem applyOp_error_sink_step (m : WorkshopManager) (id : AgentId)
    (a : Agent) (op : Op)
    (hown : ∀ p ∈ m.agents, p.2.id = p.1)
    (hnd : (m.agents.map Prod.fst).Nodup)
    (hl : alLookup m.agents id = some a)
    (hst : a.status = .Error)
    (hcur : a.current_task = none)
    (hop : ∀ ag, op = .register ag → ag.id ≠ id) :
    (∀ p ∈ (applyOp m op).agents, p.2.id = p.1) ∧
    ((applyOp m op).agents.map Prod.fst).Nodup ∧
    alLookup (applyOp m op).agents id = some a := by
  have hins : ∀ (k : AgentId) (v : Agent), v.id = k → k ≠ id →
      (∀ p ∈ alInsert m.agents k v, p.2.id = p.1) ∧
      ((alInsert m.agents k v).map Prod.fst).Nodup ∧
      alLookup (alInsert m.agents k v) id = some a := by
    intro k v hv hk
    refine ⟨alInsert_forall (fun k0 v0 => v0.id = k0) m.agents k v hown hv,
      alInsert_keys_nodup m.agents k v hnd, ?_⟩
    rw [alLookup_insert_ne m.agents k id v (Ne.symm hk)]
    exact hl
  cases op with
  | register ag =>
    exact hins ag.id ag rfl (hop ag rfl)
  | setCapacity r c => exact ⟨hown, hnd, hl⟩
  | queueTask t => exact ⟨hown, hnd, hl⟩
  | tryAssignNext now =>
    rcases try_assign_next_cases m now with h | ⟨index, task, hfind, heq⟩
    · have hAg : (applyOp m (.tryAssignNext now)) = m := h
      rw [hAg]; exact ⟨hown, hnd, hl⟩
    · rcases assign_task_cases
          { m with task_queue := m.task_queue.eraseIdx index } task now with
        h2 | ⟨aid, a0, hfa, hl0, hst0, heq2⟩
      · have hAg : (applyOp m (.tryAssignNext now)) =
            { m with task_queue := m.task_queue.eraseIdx index } :=
          heq.trans h2
        rw [hAg]; exact ⟨hown, hnd, hl⟩
      · have hl0' : alLookup m.agents aid = some a0 := hl0
        have hk : aid ≠ id := by
          intro hkk
          rw [hkk] at hl0'
          rw [hl] at hl0'
          injection hl0' with hh
          have hcontra : a.status = .Idle := by rw [hh]; exact hst0
          rw [hst] at hcontra
          cases hcontra
        have hAg : (applyOp m (.tryAssignNext now)).agents =
            alInsert m.agents aid
              { a0 with current_task := some task.id, status := .Working,
                        last_activity := now } := by
          show ((m.try_assign_next_task now).2).agents = _
          rw [heq, heq2]
          try rfl
        rw [hAg]
        exact hins aid _ (alLookup_prop (P := fun k v => v.id = k) hown hl0') hk
  | assignByPriority now =>
    rcases assign_by_priority_cases m now with h | ⟨index, task, hfind, heq⟩
    · have hAg : (applyOp m (.assignByPriority now)) =
          m.prioritize_task_queue := h
      rw [hAg]; exact ⟨hown, hnd, hl⟩
    · rcases assign_task_cases
          { m.prioritize_task_queue with
            task_queue := m.prioritize_task_queue.task_queue.eraseIdx index }
          task now with
        h2 | ⟨aid, a0, hfa, hl0, hst0, heq2⟩
      · have hAg : (applyOp m (.assignByPriority now)) =
            { m.prioritize_task_queue with
              task_queue :=
                m.prioritize_task_queue.task_queue.eraseIdx index } :=
          heq.trans h2
        rw [hAg]; exact ⟨hown, hnd, hl⟩
      · have hl0' : alLookup m.agents aid = some a0 := hl0
        have hk : aid ≠ id := by
          intro hkk
          rw [hkk] at hl0'
          rw [hl] at hl0'
          injection hl0' with hh
          have hcontra : a.status = .Idle := by rw [hh]; exact hst0
          rw [hst] at hcontra
          cases hcontra
        have hAg : (applyOp m (.assignByPriority now)).agents =
            alInsert m.agents aid
              { a0 with current_task := some task.id, status := .Working,
                        last_activity := now } := by
          show ((m.assign_by_priority now).2).agents = _
          rw [heq, heq2]
          try rfl
        rw [hAg]
        exact hins aid _ (alLookup_prop (P := fun k v => v.id = k) hown hl0') hk
  | assignTask t now =>
    rcases assign_task_cases m t now with h | ⟨aid, a0, hfa, hl0, hst0, heq2⟩
    · have hAg : (applyOp m (.assignTask t now)) = m := h
      rw [hAg]; exact ⟨hown, hnd, hl⟩
    · have hk : aid ≠ id := by
        intro hkk
        rw [hkk] at hl0
        rw [hl] at hl0
        injection hl0 with hh
        have hcontra : a.status = .Idle := by rw [hh]; exact hst0
        rw [hst] at hcontra
        cases hcontra
      have hAg : (applyOp m (.assignTask t now)).agents =
          alInsert m.agents aid
            { a0 with current_task := some t.id, status := .Working,
                      last_activity := now } := by
        show ((m.assign_task t now).2).agents = _
        rw [heq2]
        try rfl
      rw [hAg]
      exact hins aid _ (alLookup_prop (P := fun k v => v.id = k) hown hl0) hk
  | completeTask id' tid now =>
    rcases complete_task_cases m id' tid now with
      h | ⟨b, t0, b', hlb, hbt, hid, hrole, hstatus, hagents, hmax, hact⟩
    · have hAg : (applyOp m (.completeTask id' tid now)) = m := h
      rw [hAg]; exact ⟨hown, hnd, hl⟩
    · have hk : id' ≠ id := by
        intro hkk
        rw [hkk] at hlb
        rw [hl] at hlb
        injection hlb with hh
        have hcontra : a.current_task = some t0 := by rw [hh]; exact hbt
        rw [hcur] at hcontra
        cases hcontra
      have hAg : (applyOp m (.completeTask id' tid now)).agents =
          alInsert m.agents id' b' := hagents
      rw [hAg]
      exact hins id' b' (hid.trans (alLookup_prop (P := fun k v => v.id = k) hown hlb)) hk
  | failTask id' tid err now =>
    rcases fail_task_cases m id' tid err now with
      h | ⟨b, t0, b', hlb, hbt, hid, hrole, hstatus, hagents, hmax, hact⟩
    · have hAg : (applyOp m (.failTask id' tid err now)) = m := h
      rw [hAg]; exact ⟨hown, hnd, hl⟩
    · have hk : id' ≠ id := by
        intro hkk
        rw [hkk] at hlb
        rw [hl] at hlb
        injection hlb with hh
        have hcontra : a.current_task = some t0 := by rw [hh]; exact hbt
        rw [hcur] at hcontra
        cases hcontra
      have hAg : (applyOp m (.failTask id' tid err now)).agents =
          alInsert m.agents id' b' := hagents
      rw [hAg]
      exact hins id' b' (hid.trans (alLookup_prop (P := fun k v => v.id = k) hown hlb)) hk
  | checkStuck threshold now =>
    refine ⟨?_, ?_, ?_⟩
    · intro p hp
      obtain ⟨q, hq, hqp⟩ := List.mem_map.mp hp
      by_cases hc : q.2.is_stuck threshold now
      · rw [if_pos hc] at hqp
        rw [← hqp]
        exact hown q hq
      · rw [if_neg hc] at hqp
        rw [← hqp]
        exact hown q hq
    · have hAg := check_stuck_agents_keys m threshold now
      show (((m.check_for_stuck_agents threshold now).2).agents.map
        Prod.fst).Nodup
      rw [hAg]
      exact hnd
    · have hAg := check_stuck_agents_lookup m threshold now id
      show alLookup ((m.check_for_stuck_agents threshold now).2).agents id =
        some a
      rw [hAg, hl]
      simp [Agent.is_stuck, hst]
  | executeRetry id0 task now =>
    have hAg : (applyOp m (.executeRetry id0 task now)).agents = m.agents :=
      (execute_retry_state m id0 task now).1
    rw [hAg]
    exact ⟨hown, hnd, hl⟩

/-- C10: `Error` status is a sink.  In any well-formed registry state, if a
registered agent's record has status `Error` with no current task (as after
a successful `fail_task`), then after *any* sequence of public scheduler
operations that never re-registers that id, the stored record is unchanged:
the agent's status is still `Error` and it was never assigned a task
(assignment only ever selects `Idle` agents, and no operation leaves the
`Error` status). -/
theorem error_status_is_sink (m : WorkshopManager) (id : AgentId)
    (a : Agent) (ops : List Op)
    (hown : ∀ p ∈ m.agents, p.2.id = p.1)
    (hnd : (m.agents.map Prod.fst).Nodup)
    (hl : alLookup m.agents id = some a)
    (hst : a.status = .Error)
    (hcur : a.current_task = none)
    (hops : ∀ ag, Op.register ag ∈ ops → ag.id ≠ id) :
    alLookup (applyOps m ops).agents id = some a := by
  induction ops generalizing m with
  | nil => exact hl
  | cons op ops ih =>
    have hstep := applyOp_error_sink_step m id a op hown hnd hl hst hcur
      (fun ag h => hops ag (by rw [h]; exact List.mem_cons_self _ _))
    exact ih (applyOp m op) hstep.1 hstep.2.1 hstep.2.2
      (fun ag h => hops ag (List.mem_cons_of_mem _ h))

/-- Witness for C10: with agent `"A"` in the errored state, queueing more
work, trying to assign, completing, checking for stuck agents and executing
with retry all leave its `Error` record untouched. -/
theorem error_status_is_sink_witness :
    alLookup (applyOps mgrWithError opsAfterError).agents "A" =
      some agentAFailed ∧ agentAFailed.status = .Error :=
  ⟨error_status_is_sink mgrWithError "A" agentAFailed opsAfterError
    (by decide) (by decide) (by decide) (by decide) (by decide)
    (by intro ag h; simp [opsAfterError] at h),
   by decide⟩

/-! ## C2 — the active-list invariant -/

theorem schedInv_of_fields {m m' : WorkshopManager}
    (hInv : m.SchedInv)
    (hag : m'.agents = m.agents)
    (hac : m'.active_agents = m.active_agents)
    (hmx : m'.max_concurrent = m.max_concurrent) : m'.SchedInv := by
  obtain ⟨⟨hown, hnd⟩, hand, hcons, hcap⟩ := hInv
  refine ⟨⟨by rw [hag]; exact hown, by rw [hag]; exact hnd⟩,
    by rw [hac]; exact hand, ?_, by rw [hac, hmx]; exact hcap⟩
  intro r id0
  rw [hac, hag]
  exact hcons r id0

theorem schedInv_new : WorkshopManager.new.SchedInv := by
  refine ⟨⟨fun p hp => absurd hp (List.not_mem_nil p), List.nodup_nil⟩,
    fun _ => List.nodup_nil, ?_, fun _ => Nat.zero_le _⟩
  intro r id0
  constructor
  · intro hm; exact absurd hm (List.not_mem_nil id0)
  · rintro ⟨a, ha, -, -⟩; exact Option.noConfusion ha

theorem find_available_agent_sound (m : WorkshopManager) (role : AgentRole)
    (aid : AgentId)
    (hown : ∀ p ∈ m.agents, p.2.id = p.1)
    (hnd : (m.agents.map Prod.fst).Nodup)
    (hf : m.find_available_agent role = some aid) :
    ∃ a, alLookup m.agents aid = some a ∧ a.role = role ∧
      a.status = .Idle := by
  unfold WorkshopManager.find_available_agent at hf
  cases hfind : m.agents.find? (fun p =>
      p.2.role = role && p.2.status = .Idle) with
  | none => rw [hfind] at hf; cases hf
  | some p =>
    rw [hfind] at hf
    injection hf with hf
    have hpred := List.find?_some hfind
    have hmem := List.mem_of_find?_eq_some hfind
    simp only [Bool.and_eq_true, decide_eq_true_eq] at hpred
    have hid : p.2.id = p.1 := hown p hmem
    have hlp : alLookup m.agents p.1 = some p.2 := by
      apply mem_alLookup hnd
      rw [Prod.mk.eta]
      exact hmem
    have hf' : p.2.id = aid := hf
    refine ⟨p.2, ?_, hpred.1, hpred.2⟩
    rw [← hf', hid]
    exact hlp

theorem find_assignable_task_pred {m : WorkshopManager} {index : Nat}
    {task : Task} (h : m.find_assignable_task = some (index, task)) :
    m.assignable_pred task = true := by
  unfold WorkshopManager.find_assignable_task at h
  have := List.find?_some h
  simpa using this

theorem find_best_agent_can_assign {m : WorkshopManager} {task : Task}
    (h : (m.find_best_agent_for_task task).isSome = true) :
    m.can_assign task.required_role = true := by
  unfold WorkshopManager.find_best_agent_for_task at h
  cases havail : (m.agents.map (·.2)).filter (fun agent =>
      agent.role = task.required_role && agent.status = .Idle &&
      m.can_assign agent.role) with
  | nil =>
    simp only [havail] at h
    simp at h
  | cons x xs =>
    have hx : x ∈ (m.agents.map (·.2)).filter (fun agent =>
        agent.role = task.required_role && agent.status = .Idle &&
        m.can_assign agent.role) := by
      rw [havail]; exact List.mem_cons_self x xs
    have hpred := List.of_mem_filter hx
    simp only [Bool.and_eq_true, decide_eq_true_eq] at hpred
    obtain ⟨⟨hrole, -⟩, hca⟩ := hpred
    rw [← hrole]
    exact hca

theorem schedInv_register (m : WorkshopManager) (agent : Agent)
    (hInv : m.SchedInv) (hst : agent.status ≠ .Working)
    (hold : ∀ old, alLookup m.agents agent.id = some old →
      old.status ≠ .Working) :
    ((m.register_agent agent).2).SchedInv := by
  obtain ⟨⟨hown, hnd⟩, hand, hcons, hcap⟩ := hInv
  refine ⟨⟨?_, ?_⟩, hand, ?_, hcap⟩
  · exact alInsert_forall (fun k v => v.id = k) m.agents agent.id agent
      hown rfl
  · exact alInsert_keys_nodup m.agents agent.id agent hnd
  · intro r id0
    show id0 ∈ m.active_agents r ↔
      ∃ a, alLookup (alInsert m.agents agent.id agent) id0 = some a ∧
        a.role = r ∧ a.status = .Working
    by_cases hid0 : id0 = agent.id
    · subst hid0
      constructor
      · intro hm
        obtain ⟨old, hco, -, hcw⟩ := (hcons r agent.id).mp hm
        exact absurd hcw (hold old hco)
      · rintro ⟨a, ha, -, hw⟩
        rw [alLookup_insert_self] at ha
        injection ha with ha
        rw [← ha] at hw
        exact absurd hw hst
    · rw [alLookup_insert_ne m.agents agent.id id0 agent hid0]
      exact hcons r id0

theorem schedInv_retire (m : WorkshopManager) (agent_id : AgentId)
    (b b' : Agent) (m' : WorkshopManager)
    (hInv : m.SchedInv)
    (hlb : alLookup m.agents agent_id = some b)
    (hid : b'.id = b.id) (hrole : b'.role = b.role)
    (hnw : b'.status ≠ .Working)
    (hagents : m'.agents = alInsert m.agents agent_id b')
    (hmax : m'.max_concurrent = m.max_concurrent)
    (hactive : m'.active_agents = fun r =>
      if r = b'.role then
        (m.active_agents r).filter (fun x => x ≠ agent_id)
      else m.active_agents r) :
    m'.SchedInv := by
  obtain ⟨⟨hown, hnd⟩, hand, hcons, hcap⟩ := hInv
  have hbid : b.id = agent_id :=
    alLookup_prop (P := fun k v => v.id = k) hown hlb
  refine ⟨⟨?_, ?_⟩, ?_, ?_, ?_⟩
  · rw [hagents]
    exact alInsert_forall (fun k v => v.id = k) m.agents agent_id b' hown
      (hid.trans hbid)
  · rw [hagents]
    exact alInsert_keys_nodup m.agents agent_id b' hnd
  · intro r
    simp only [hactive]
    by_cases hr : r = b'.role
    · rw [if_pos hr]; exact (hand r).filter _
    · rw [if_neg hr]; exact hand r
  · intro r id0
    simp only [hactive, hagents]
    by_cases hid0 : id0 = agent_id
    · subst hid0
      constructor
      · intro hm
        by_cases hr : r = b'.role
        · rw [if_pos hr] at hm
          have hmf := List.mem_filter.mp hm
          simp at hmf
        · rw [if_neg hr] at hm
          obtain ⟨c, hc, hcr, -⟩ := (hcons r _).mp hm
          rw [hlb] at hc
          injection hc with hc
          exact absurd
            ((hrole.trans (congrArg Agent.role hc)).trans hcr).symm hr
      · rintro ⟨c, hc, -, hcw⟩
        rw [alLookup_insert_self] at hc
        injection hc with hc
        rw [← hc] at hcw
        exact absurd hcw hnw
    · rw [alLookup_insert_ne m.agents agent_id id0 b' hid0]
      by_cases hr : r = b'.role
      · rw [if_pos hr]
        constructor
        · intro hm
          exact (hcons r id0).mp (List.mem_filter.mp hm).1
        · intro hex
          exact List.mem_filter.mpr ⟨(hcons r id0).mpr hex, by simp [hid0]⟩
      · rw [if_neg hr]
        exact hcons r id0
  · intro r
    simp only [hactive, hmax]
    by_cases hr : r = b'.role
    · rw [if_pos hr]
      exact le_trans (List.length_filter_le _ _) (hcap r)
    · rw [if_neg hr]
      exact hcap r

theorem schedInv_grow (m : WorkshopManager) (aid : AgentId) (a0 a1 : Agent)
    (role : AgentRole) (m' : WorkshopManager)
    (hInv : m.SchedInv)
    (hl0 : alLookup m.agents aid = some a0)
    (hidle : a0.status = .Idle)
    (hid : a1.id = a0.id) (hrole1 : a1.role = role)
    (hw : a1.status = .Working)
    (hlt : (m.active_agents role).length < m.max_concurrent role)
    (hagents : m'.agents = alInsert m.agents aid a1)
    (hmax : m'.max_concurrent = m.max_concurrent)
    (hactive : m'.active_agents = fun r =>
      if r = role then m.active_agents r ++ [aid]
      else m.active_agents r) :
    m'.SchedInv := by
  obtain ⟨⟨hown, hnd⟩, hand, hcons, hcap⟩ := hInv
  have ha0id : a0.id = aid :=
    alLookup_prop (P := fun k v => v.id = k) hown hl0
  have hnot : ∀ r, aid ∉ m.active_agents r := by
    intro r hm
    obtain ⟨c, hc, -, hcw⟩ := (hcons r aid).mp hm
    rw [hl0] at hc
    injection hc with hc
    rw [← hc] at hcw
    rw [hidle] at hcw
    cases hcw
  refine ⟨⟨?_, ?_⟩, ?_, ?_, ?_⟩
  · rw [hagents]
    exact alInsert_forall (fun k v => v.id = k) m.agents aid a1 hown
      (hid.trans ha0id)
  · rw [hagents]
    exact alInsert_keys_nodup m.agents aid a1 hnd
  · intro r
    simp only [hactive]
    by_cases hr : r = role
    · rw [if_pos hr]
      refine List.Nodup.append (hand r) (List.nodup_singleton aid) ?_
      intro x hx hx2
      simp only [List.mem_singleton] at hx2
      subst hx2
      exact hnot r hx
    · rw [if_neg hr]
      exact hand r
  · intro r id0
    simp only [hactive, hagents]
    by_cases hid0 : id0 = aid
    · subst hid0
      by_cases hr : r = role
      · rw [if_pos hr]
        constructor
        · intro _
          exact ⟨a1, alLookup_insert_self _ _ _, by rw [hrole1, hr], hw⟩
        · intro _
          exact List.mem_append.mpr (Or.inr (List.mem_singleton.mpr rfl))
      · rw [if_neg hr]
        constructor
        · intro hm
          exact absurd hm (hnot r)
        · rintro ⟨c, hc, hcr, -⟩
          rw [alLookup_insert_self] at hc
          injection hc with hc
          exact absurd
            (((congrArg Agent.role hc).trans hcr).symm.trans hrole1) hr
    · rw [alLookup_insert_ne m.agents aid id0 a1 hid0]
      by_cases hr : r = role
      · rw [if_pos hr]
        constructor
        · intro hm
          rcases List.mem_append.mp hm with hm | hm
          · exact (hcons r id0).mp hm
          · simp only [List.mem_singleton] at hm
            exact absurd hm hid0
        · intro hex
          exact List.mem_append.mpr (Or.inl ((hcons r id0).mpr hex))
      · rw [if_neg hr]
        exact hcons r id0
  · intro r
    simp only [hactive, hmax]
    by_cases hr : r = role
    · rw [if_pos hr, List.length_append, List.length_singleton, hr]
      exact hlt
    · rw [if_neg hr]
      exact hcap r

theorem schedInv_assign (m : WorkshopManager) (t : Task) (now : Nat)
    (hInv : m.SchedInv) (hcap : m.can_assign t.required_role = true) :
    ((m.assign_task t now).2).SchedInv := by
  rcases assign_task_cases m t now with h | ⟨aid, a0, hfa, hl0, hst0, heq⟩
  · rw [h]; exact hInv
  · have hlt : (m.active_agents t.required_role).length <
        m.max_concurrent t.required_role := by
      simpa [WorkshopManager.can_assign] using hcap
    have hown := hInv.1.1
    have hnd := hInv.1.2
    obtain ⟨a', ha', har, -⟩ :=
      find_available_agent_sound m t.required_role aid hown hnd hfa
    have ha0 : a0 = a' := Option.some.inj (hl0.symm.trans ha')
    refine schedInv_grow m aid a0
      { a0 with current_task := some t.id, status := .Working,
                last_activity := now }
      t.required_role ((m.assign_task t now).2) hInv hl0 hst0 rfl ?_ rfl
      hlt ?_ ?_ ?_
    · show a0.role = t.required_role
      rw [ha0]
      exact har
    · rw [heq]
    · rw [heq]
    · rw [heq]

theorem schedInv_try_assign (m : WorkshopManager) (now : Nat)
    (hInv : m.SchedInv) : ((m.try_assign_next_task now).2).SchedInv := by
  rcases try_assign_next_cases m now with h | ⟨index, task, hfind, heq⟩
  · rw [h]; exact hInv
  · rw [heq]
    have hpred := find_assignable_task_pred hfind
    simp only [WorkshopManager.assignable_pred, Bool.and_eq_true] at hpred
    obtain ⟨⟨-, hca⟩, -⟩ := hpred
    exact schedInv_assign _ task now
      (schedInv_of_fields hInv rfl rfl rfl) hca

theorem schedInv_assign_by_priority (m : WorkshopManager) (now : Nat)
    (hInv : m.SchedInv) : ((m.assign_by_priority now).2).SchedInv := by
  rcases assign_by_priority_cases m now with h | ⟨index, task, hfind, heq⟩
  · rw [h]; exact schedInv_of_fields hInv rfl rfl rfl
  · rw [heq]
    have hfound := List.find?_some hfind
    simp only [Bool.and_eq_true] at hfound
    obtain ⟨-, hbest⟩ := hfound
    have hca := @find_best_agent_can_assign m.prioritize_task_queue task hbest
    exact schedInv_assign _ task now
      (schedInv_of_fields hInv rfl rfl rfl) hca

theorem schedInv_complete (m : WorkshopManager) (agent_id : AgentId)
    (task_id : TaskId) (now : Nat)
    (hInv : m.SchedInv)
    (hguard : ∀ a t, alLookup m.agents agent_id = some a →
      a.current_task = some t → t = task_id) :
    ((m.complete_task agent_id task_id now).2).SchedInv := by
  rcases complete_task_cases m agent_id task_id now with
    h | ⟨b, t0, b', hlb, hbt, hid, hrole, hstatus, hagents, hmax, hact⟩
  · rw [h]; exact hInv
  · have ht0 : t0 = task_id := hguard b t0 hlb hbt
    rcases hact with ⟨hne, -⟩ | ⟨-, hactive⟩
    · exact absurd ht0 hne
    · exact schedInv_retire m agent_id b b' _ hInv hlb hid hrole
        (by rw [hstatus]; intro hh; cases hh) hagents hmax hactive

theorem schedInv_fail (m : WorkshopManager) (agent_id : AgentId)
    (task_id : TaskId) (err : String) (now : Nat)
    (hInv : m.SchedInv)
    (hguard : ∀ a t, alLookup m.agents agent_id = some a →
      a.current_task = some t → t = task_id) :
    ((m.fail_task agent_id task_id err now).2).SchedInv := by
  rcases fail_task_cases m agent_id task_id err now with
    h | ⟨b, t0, b', hlb, hbt, hid, hrole, hstatus, hagents, hmax, hact⟩
  · rw [h]; exact hInv
  · have ht0 : t0 = task_id := hguard b t0 hlb hbt
    rcases hact with ⟨hne, -⟩ | ⟨-, hactive⟩
    · exact absurd ht0 hne
    · exact schedInv_retire m agent_id b b' _ hInv hlb hid hrole
        (by rw [hstatus]; intro hh; cases hh) hagents hmax hactive

/-- C2 (counterexample): the invariant `|active[r]| ≤ cap[r]` fails on a
state reachable by the claim's own operation list — register the single
Implementer, queue a task, `try_assign_next`, then `set_capacity(
Implementer, 0)`: the Implementer active list still has length 1 while the
cap is 0.  (`assign_task`, which skips the capacity check, and
`check_for_stuck_agents`, which leaves supervised agents in the active
lists, break the claimed invariant as well.) -/
theorem capacity_exceeded_after_set_capacity :
    mgrOverCap.max_concurrent .Implementer <
      (mgrOverCap.active_agents .Implementer).length := by
  decide

/-- C2 (amended): in every state reachable from a fresh `WorkshopManager`
by `register_agent` (of agents that are not `Working` and do not displace a
`Working` record), `queue_task`, `try_assign_next_task`,
`assign_by_priority`, and `complete_task`/`fail_task` invoked with the
agent's current task id, the active list of every role holds exactly the
ids of registered `Working` agents of that role, without duplicates, and
its length never exceeds the role's capacity.  (`set_capacity`, direct
`assign_task` and `check_for_stuck_agents` are excluded: the code lets each
of them break the invariant — see the counterexample.) -/
theorem sched_active_invariant (m : WorkshopManager)
    (h : ReachableC2 m) :
    m.ActiveConsistent ∧ (∀ r, (m.active_agents r).Nodup) ∧
    ∀ r, (m.active_agents r).length ≤ m.max_concurrent r := by
  have main : m.SchedInv := by
    induction h with
    | init => exact schedInv_new
    | register m agent hre hst hold ih => exact schedInv_register m agent ih hst hold
    | queueTask m t hre ih => exact schedInv_of_fields ih rfl rfl rfl
    | tryAssignNext m now hre ih => exact schedInv_try_assign m now ih
    | assignByPriority m now hre ih => exact schedInv_assign_by_priority m now ih
    | completeTask m agent_id task_id now hre hg ih => exact schedInv_complete m agent_id task_id now ih hg
    | failTask m agent_id task_id err now hre hg ih => exact schedInv_fail m agent_id task_id err now ih hg
  exact ⟨main.2.2.1, main.2.1, main.2.2.2⟩

/-- Witness for C2 (amended), at the initial state. -/
theorem sched_active_invariant_witness :
    (WorkshopManager.new.active_agents .Implementer).length ≤
      WorkshopManager.new.max_concurrent .Implementer ∧
    ¬ ("A" ∈ WorkshopManager.new.active_agents .Implementer) := by
  have h := sched_active_invariant WorkshopManager.new ReachableC2.init
  refine ⟨h.2.2 .Implementer, ?_⟩
  intro hm
  obtain ⟨a, ha, -, -⟩ := (h.1 .Implementer "A").mp hm
  exact Option.noConfusion ha

end DFCoder
